import Mathlib

/-!
# Verification of the batch transcription pipeline

A shallow embedding of the Redux store `fileProcessingSlice`
(`src/unnamed/part_002`), the queue-engine hook
(`src/src/hooks/useFileProcessor.js`), the review modal handler
(`src/src/components/ReviewModal.jsx`) and the export utilities
(`src/src/utils/fileUtils.js`) of the transcribe-batch application,
together with proofs and refutations of the specification's claims about
the per-file state machine, the single-flight queue discipline, progress
monotonicity, review approval, retry, reprocess, batch admission and bulk
export.

Wall-clock instants (`new Date().toISOString()` in the source) are
modelled as natural numbers supplied by the environment at each event.
-/

namespace TK

/-- The file statuses.  The first eight are the `FILE_STATUS` constants of
`fileProcessingSlice`; the last three are the review-gate statuses used by
`useFileProcessor.js`, `ReviewModal.jsx` and `TranscribeBatchEnhanced.jsx`
(their defining slice is not among the source files; they are taken from
the spec's §4.2 state list). -/
inductive FileStatus where
  | pending
  | transcribing
  | transcribed
  | aiProcessing
  | aiProcessed
  | generatingSpeech
  | completed
  | failed
  | reviewPending
  | approved
  | rejected
  deriving DecidableEq, Repr

/-- Result of the `transcribeFile` thunk (`{ text, duration, processing_time }`). -/
structure TranscriptionResult where
  text : String
  duration : Nat
  processingTime : Nat
  deriving DecidableEq, Repr

/-- Result object built by the `processWithAI` thunk. -/
structure AIResult where
  processedText : String
  originalText : String
  promptUsed : String
  model : String
  tokensUsed : Nat
  deriving DecidableEq, Repr

/-- Audio payload stored by `updateFileFinalAudio` / `generateSpeech.fulfilled`
(`{ url, blob }`). -/
structure AudioResult where
  url : String
  blob : String
  deriving DecidableEq, Repr

/-- One entry of a record's `errors` list.  `markFileFailed` pushes entries
without a `stage` field (`none` here); the thunk `rejected` reducers push
entries with a stage string. -/
structure ErrorEntry where
  stage : Option String
  message : String
  timestamp : Nat
  deriving DecidableEq, Repr

/-- The per-file `timestamps` object created by `addFiles`. -/
structure Timestamps where
  added : Nat
  transcriptionStart : Option Nat := none
  transcriptionEnd : Option Nat := none
  aiProcessingStart : Option Nat := none
  aiProcessingEnd : Option Nat := none
  speechGenerationStart : Option Nat := none
  speechGenerationEnd : Option Nat := none
  completedAt : Option Nat := none
  deriving DecidableEq, Repr

/-- A `FileRecord` as created by the `addFiles` reducer.  Optional fields
start as `null` in the source and are modelled with `Option`. -/
structure FileRec where
  id : Nat
  name : String
  size : Nat
  ftype : String
  status : FileStatus
  progress : Nat
  transcription : Option TranscriptionResult
  editableTranscription : Option String
  aiResult : Option AIResult
  editableAIResult : Option String
  finalAudio : Option AudioResult
  timestamps : Timestamps
  errors : List ErrorEntry
  deriving DecidableEq, Repr

/-- The `statistics` sub-object of the slice state. -/
structure Statistics where
  totalFiles : Nat
  completedFiles : Nat
  failedFiles : Nat
  deriving DecidableEq, Repr

/-- The `fileProcessing` slice state, extended with the review-gate fields
(`reviewQueue`, `approvedFiles`, `globalSettings.batchReviewMode`) read by
the hook and pages, and with a boolean snapshot of whether an OpenAI key is
available (`aiSettings.openaiApiKey || env`). -/
structure Store where
  files : List FileRec
  processingQueue : List Nat
  currentlyProcessing : Option Nat
  reviewQueue : List Nat
  approvedFiles : List Nat
  batchReviewMode : Bool
  hasApiKey : Bool
  stats : Statistics
  deriving DecidableEq, Repr

/-- `state.files.find(f => f.id === fileId)` — first record with the id. -/
def findFile (s : Store) (id : Nat) : Option FileRec :=
  s.files.find? (fun f => f.id == id)

/-- Status of the first record with the given id, if any. -/
def statusOf (s : Store) (id : Nat) : Option FileStatus :=
  (findFile s id).map FileRec.status

/-- Mutating the record found by `find`: update the first element whose id
matches, leave everything else in place. -/
def updateFirst (id : Nat) (g : FileRec → FileRec) : List FileRec → List FileRec
  | [] => []
  | f :: fs => if f.id == id then g f :: fs else f :: updateFirst id g fs

/-- `true` iff some record has the id (the `if (file)` guard of the reducers). -/
def hasFile (s : Store) (id : Nat) : Bool :=
  s.files.any (fun f => f.id == id)

/-- A raw uploaded file (name, byte size, declared media type). -/
structure RawFile where
  name : String
  size : Nat
  ftype : String
  deriving DecidableEq, Repr

/-- The record built for one raw file by the `addFiles` reducer:
status PENDING, progress 0, all results `null`, empty error list. -/
def mkFileRec (r : RawFile) (id : Nat) (now : Nat) : FileRec :=
  { id := id
    name := r.name
    size := r.size
    ftype := r.ftype
    status := .pending
    progress := 0
    transcription := none
    editableTranscription := none
    aiResult := none
    editableAIResult := none
    finalAudio := none
    timestamps := { added := now }
    errors := [] }

/-- The records built by `addFiles` for a payload, with consecutive ids
starting at `baseId` (modelling the source's `Date.now()_index` scheme). -/
def mkFileRecs : List RawFile → Nat → Nat → List FileRec
  | [], _, _ => []
  | r :: rs, baseId, now => mkFileRec r baseId now :: mkFileRecs rs (baseId + 1) now

/-- Reducer `addFiles`: appends one fresh PENDING record per payload file
and bumps `statistics.totalFiles`. -/
def addFiles (raws : List RawFile) (baseId now : Nat) (s : Store) : Store :=
  { s with
    files := s.files ++ mkFileRecs raws baseId now
    stats := { s.stats with totalFiles := s.stats.totalFiles + raws.length } }

/-- Reducer `removeFile`: drops the record, drops the id from the queue and
clears the currently-processing slot if it held this id. -/
def removeFile (id : Nat) (s : Store) : Store :=
  { s with
    files := s.files.filter (fun f => f.id != id)
    processingQueue := s.processingQueue.filter (fun j => j != id)
    currentlyProcessing :=
      if s.currentlyProcessing = some id then none else s.currentlyProcessing }

/-- Reducer `clearAllFiles`. -/
def clearAllFiles (s : Store) : Store :=
  { s with
    files := []
    processingQueue := []
    currentlyProcessing := none
    stats := { totalFiles := 0, completedFiles := 0, failedFiles := 0 } }

/-- Reducer `addToQueue`: pushes the payload ids that are not already in
the queue (the membership filter is evaluated against the queue as it was
when the action arrived). -/
def addToQueue (ids : List Nat) (s : Store) : Store :=
  { s with
    processingQueue :=
      s.processingQueue ++ ids.filter (fun id => !(s.processingQueue.contains id)) }

/-- Reducer `removeFromQueue`. -/
def removeFromQueue (id : Nat) (s : Store) : Store :=
  { s with processingQueue := s.processingQueue.filter (fun j => j != id) }

/-- Reducer `setCurrentlyProcessing`. -/
def setCurrentlyProcessing (v : Option Nat) (s : Store) : Store :=
  { s with currentlyProcessing := v }

/-- The shared shape of the record-targeting reducers: if a record with
the id exists, rewrite it in place with `g` and apply the additional
store effect `k` (statistics counters, queue bookkeeping); otherwise do
nothing. -/
def guardedUpdate (id : Nat) (g : FileRec → FileRec) (k : Store → Store)
    (s : Store) : Store :=
  if hasFile s id then { k s with files := updateFirst id g s.files } else s

/-- `statistics.failedFiles++`. -/
def bumpFailed (s : Store) : Store :=
  { s with stats := { s.stats with failedFiles := s.stats.failedFiles + 1 } }

/-- `statistics.completedFiles++`. -/
def bumpCompleted (s : Store) : Store :=
  { s with stats := { s.stats with completedFiles := s.stats.completedFiles + 1 } }

/-- Per-record effect of `updateFileStatus`: sets `status`, and `progress`
only when the payload carries one. -/
def gUpdateStatus (st : FileStatus) (progress : Option Nat) (f : FileRec) : FileRec :=
  { f with status := st, progress := progress.getD f.progress }

/-- Reducer `updateFileStatus`; no-op when no record has the id. -/
def updateFileStatus (id : Nat) (st : FileStatus) (progress : Option Nat)
    (s : Store) : Store :=
  guardedUpdate id (gUpdateStatus st progress) (fun t => t) s

/-- Per-record effect of `updateFileTranscription`: stores the result and
the editable copy (`editableText || transcription.text`). -/
def gUpdateTranscription (tr : TranscriptionResult) (editable : Option String)
    (f : FileRec) : FileRec :=
  { f with transcription := some tr
           editableTranscription := some (editable.getD tr.text) }

/-- Reducer `updateFileTranscription`. -/
def updateFileTranscription (id : Nat) (tr : TranscriptionResult)
    (editable : Option String) (s : Store) : Store :=
  guardedUpdate id (gUpdateTranscription tr editable) (fun t => t) s

/-- Per-record effect of `updateFileAIResult`. -/
def gUpdateAIResult (res : AIResult) (editable : Option String)
    (f : FileRec) : FileRec :=
  { f with aiResult := some res
           editableAIResult := some (editable.getD res.processedText) }

/-- Reducer `updateFileAIResult`. -/
def updateFileAIResult (id : Nat) (res : AIResult) (editable : Option String)
    (s : Store) : Store :=
  guardedUpdate id (gUpdateAIResult res editable) (fun t => t) s

/-- Per-record effect of `updateFileFinalAudio`. -/
def gUpdateFinalAudio (audio : AudioResult) (f : FileRec) : FileRec :=
  { f with finalAudio := some audio }

/-- Reducer `updateFileFinalAudio`. -/
def updateFileFinalAudio (id : Nat) (audio : AudioResult) (s : Store) : Store :=
  guardedUpdate id (gUpdateFinalAudio audio) (fun t => t) s

/-- Reducer `markFileCompleted`: forces COMPLETED / progress 100 unless the
record is already COMPLETED; no-op on a missing id. -/
def markFileCompleted (id : Nat) (now : Nat) (s : Store) : Store :=
  match findFile s id with
  | none => s
  | some f =>
    if f.status ≠ FileStatus.completed then
      { s with
        files := updateFirst id (fun f =>
          { f with status := .completed
                   progress := 100
                   timestamps := { f.timestamps with completedAt := some now } }) s.files
        stats := { s.stats with completedFiles := s.stats.completedFiles + 1 } }
    else s

/-- Per-record effect of `markFileFailed`: FAILED plus a stage-less error
entry; `progress` untouched. -/
def gMarkFailed (msg : String) (now : Nat) (f : FileRec) : FileRec :=
  { f with status := .failed
           errors := f.errors ++ [{ stage := none, message := msg, timestamp := now }] }

/-- Reducer `markFileFailed`: sets FAILED, appends a stage-less error entry
and bumps `failedFiles`; no-op on a missing id. -/
def markFileFailed (id : Nat) (msg : String) (now : Nat) (s : Store) : Store :=
  guardedUpdate id (gMarkFailed msg now) bumpFailed s

/-- Per-record effect of a stage `rejected` reducer: FAILED plus an error
entry carrying the stage name; `progress` untouched. -/
def gStageRejected (stage msg : String) (now : Nat) (f : FileRec) : FileRec :=
  { f with status := .failed
           errors := f.errors ++ [{ stage := some stage, message := msg, timestamp := now }] }

/-- Per-record effect of `transcribeFile.pending`. -/
def gTranscribePending (now : Nat) (f : FileRec) : FileRec :=
  { f with status := .transcribing
           timestamps := { f.timestamps with transcriptionStart := some now } }

/-- `transcribeFile.pending`: status TRANSCRIBING, start timestamp. -/
def transcribePending (id now : Nat) (s : Store) : Store :=
  guardedUpdate id (gTranscribePending now) (fun t => t) s

/-- Per-record effect of `transcribeFile.fulfilled`. -/
def gTranscribeFulfilled (res : TranscriptionResult) (now : Nat) (f : FileRec) : FileRec :=
  { f with status := .transcribed
           transcription := some res
           editableTranscription := some res.text
           timestamps := { f.timestamps with transcriptionEnd := some now }
           progress := 33 }

/-- `transcribeFile.fulfilled`: status TRANSCRIBED, store result, reset the
editable copy to the fresh text, end timestamp, progress 33. -/
def transcribeFulfilled (id : Nat) (res : TranscriptionResult) (now : Nat)
    (s : Store) : Store :=
  guardedUpdate id (gTranscribeFulfilled res now) (fun t => t) s

/-- `transcribeFile.rejected`: status FAILED, append an error entry with
stage `"transcription"`, bump `failedFiles`; progress untouched. -/
def transcribeRejected (id : Nat) (msg : String) (now : Nat) (s : Store) : Store :=
  guardedUpdate id (gStageRejected "transcription" msg now) bumpFailed s

/-- Per-record effect of `processWithAI.pending`. -/
def gAIPending (now : Nat) (f : FileRec) : FileRec :=
  { f with status := .aiProcessing
           timestamps := { f.timestamps with aiProcessingStart := some now } }

/-- `processWithAI.pending`: status AI_PROCESSING, start timestamp. -/
def aiPending (id now : Nat) (s : Store) : Store :=
  guardedUpdate id (gAIPending now) (fun t => t) s

/-- Per-record effect of `processWithAI.fulfilled`. -/
def gAIFulfilled (res : AIResult) (now : Nat) (f : FileRec) : FileRec :=
  { f with status := .aiProcessed
           aiResult := some res
           editableAIResult := some res.processedText
           timestamps := { f.timestamps with aiProcessingEnd := some now }
           progress := 66 }

/-- `processWithAI.fulfilled`: status AI_PROCESSED, store result, reset the
editable copy, end timestamp, progress 66. -/
def aiFulfilled (id : Nat) (res : AIResult) (now : Nat) (s : Store) : Store :=
  guardedUpdate id (gAIFulfilled res now) (fun t => t) s

/-- `processWithAI.rejected`: FAILED with stage `"ai_processing"`. -/
def aiRejected (id : Nat) (msg : String) (now : Nat) (s : Store) : Store :=
  guardedUpdate id (gStageRejected "ai_processing" msg now) bumpFailed s

/-- Per-record effect of `generateSpeech.pending`. -/
def gSpeechPending (now : Nat) (f : FileRec) : FileRec :=
  { f with status := .generatingSpeech
           timestamps := { f.timestamps with speechGenerationStart := some now } }

/-- `generateSpeech.pending`: status GENERATING_SPEECH, start timestamp. -/
def speechPending (id now : Nat) (s : Store) : Store :=
  guardedUpdate id (gSpeechPending now) (fun t => t) s

/-- Per-record effect of `generateSpeech.fulfilled`. -/
def gSpeechFulfilled (audio : AudioResult) (now : Nat) (f : FileRec) : FileRec :=
  { f with status := .completed
           finalAudio := some audio
           timestamps := { f.timestamps with speechGenerationEnd := some now }
           progress := 100 }

/-- `generateSpeech.fulfilled`: status COMPLETED, store audio, end
timestamp, progress 100, bump `completedFiles`. -/
def speechFulfilled (id : Nat) (audio : AudioResult) (now : Nat) (s : Store) : Store :=
  guardedUpdate id (gSpeechFulfilled audio now) bumpCompleted s

/-- `generateSpeech.rejected`: FAILED with stage `"speech_generation"`. -/
def speechRejected (id : Nat) (msg : String) (now : Nat) (s : Store) : Store :=
  guardedUpdate id (gStageRejected "speech_generation" msg now) bumpFailed s

/-- Modelled from the spec: the reducer `approveFile` of the richer
`fileProcessingSlice` is imported by `useFileProcessor.js`,
`ReviewModal.jsx` and `TranscribeBatchEnhanced.jsx` but that slice is not
among the source files.  Spec §4.3: "`approve(id)`: moves
REVIEW_PENDING→APPROVED, removes from ReviewQueue, adds to approvedFiles,
re-enqueues to ProcessingQueue." -/
def approveFile (id : Nat) (s : Store) : Store :=
  guardedUpdate id (fun f => { f with status := .approved })
    (fun t =>
      { t with
        reviewQueue := t.reviewQueue.filter (fun j => j != id)
        approvedFiles :=
          if t.approvedFiles.contains id then t.approvedFiles
          else t.approvedFiles ++ [id]
        processingQueue :=
          if t.processingQueue.contains id then t.processingQueue
          else t.processingQueue ++ [id] })
    s

/-- Modelled from the spec: the reducer `rejectFile` of the richer slice is
missing from the sources.  Spec §4.3: "`reject(id)`: moves
REVIEW_PENDING→REJECTED, removes from ReviewQueue, no re-enqueue." -/
def rejectFile (id : Nat) (s : Store) : Store :=
  guardedUpdate id (fun f => { f with status := .rejected })
    (fun t => { t with reviewQueue := t.reviewQueue.filter (fun j => j != id) }) s

/-- Modelled from the spec: the reducer `removeFromReviewQueue` of the
richer slice is missing from the sources; it drops the id from the
ReviewQueue. -/
def removeFromReviewQueue (id : Nat) (s : Store) : Store :=
  { s with reviewQueue := s.reviewQueue.filter (fun j => j != id) }

/-- Modelled from the spec: the reducer `updateEditableAIResult` of the
richer slice is missing from the sources; it stores the user-edited copy
of the rewrite text (`editableRewrite` in the spec's data model). -/
def updateEditableAIResult (id : Nat) (text : String) (s : Store) : Store :=
  guardedUpdate id (fun f => { f with editableAIResult := some text })
    (fun t => t) s

/-- Modelled from the spec: the review deferral of the richer slice
(AI_PROCESSED → REVIEW_PENDING when `batchReviewMode` is on; "it leaves
ProcessingQueue and enters ReviewQueue", §4.2) is missing from the
sources.  This models only the status change and the ReviewQueue entry;
the engine's own `removeFromQueue`/`setCurrentlyProcessing(null)` calls
(`useFileProcessor.js` lines 126–131) are composed with it in the step
relation. -/
def deferToReview (id : Nat) (s : Store) : Store :=
  guardedUpdate id (fun f => { f with status := .reviewPending })
    (fun t =>
      { t with reviewQueue :=
          if t.reviewQueue.contains id then t.reviewQueue else t.reviewQueue ++ [id] })
    s

/-- `handleApprove` of `ReviewModal.jsx`: optionally saves the edited text,
then dispatches `approveFile` and `removeFromReviewQueue`. -/
def handleApprove (id : Nat) (edited : Option String) (s : Store) : Store :=
  removeFromReviewQueue id (approveFile id
    (match edited with
     | some t => updateEditableAIResult id t s
     | none => s))

/-- `handleReject` of `ReviewModal.jsx`: dispatches `rejectFile` and
`removeFromReviewQueue`. -/
def handleReject (id : Nat) (s : Store) : Store :=
  removeFromReviewQueue id (rejectFile id s)

/-- The statuses accepted by `startBatchProcessing`
(`useFileProcessor.js` lines 169–177). -/
def eligibleStatus (st : FileStatus) : Bool :=
  st == .pending || st == .transcribed || st == .aiProcessed || st == .approved

/-- `true` iff the store holds a record with this id whose status passes
the `startBatchProcessing` filter. -/
def isEligible (s : Store) (id : Nat) : Bool :=
  ((findFile s id).map (fun f => eligibleStatus f.status)).getD false

/-- One `dispatch(addToQueue(fileId))` per id, in order. -/
def enqueueEach (ids : List Nat) (s : Store) : Store :=
  ids.foldl (fun acc id => addToQueue [id] acc) s

/-- The ids of the input whose record's status passes the
`startBatchProcessing` filter (`validFileIds` in the source). -/
def eligibleIds (s : Store) (ids : List Nat) : List Nat :=
  ids.filter (fun id => isEligible s id)

/-- The eligible ids that are not already in the ProcessingQueue — the
ones `startBatchProcessing` actually dispatches `addToQueue` for (the
membership test reads the queue as it was at call time). -/
def newlyQueued (s : Store) (ids : List Nat) : List Nat :=
  (eligibleIds s ids).filter (fun id => !(s.processingQueue.contains id))

/-- `startBatchProcessing(fileIds)` of `useFileProcessor.js`
(lines 168–191): keeps the ids whose record's status is PENDING,
TRANSCRIBED, AI_PROCESSED or APPROVED; throws
`'No valid files to process'` when none is left (before any dispatch, so
the store is unchanged); otherwise dispatches `addToQueue` for every kept
id that was not already in the queue and returns the number of kept ids. -/
def startBatchProcessing (ids : List Nat) (s : Store) : Store × Except String Nat :=
  if (eligibleIds s ids).isEmpty then
    (s, .error "No valid files to process")
  else
    (enqueueEach (newlyQueued s ids) s, .ok (eligibleIds s ids).length)

/-- The per-id body of `retryFailedFiles`: dispatch
`updateFileStatus(id, PENDING, 0)` then `addToQueue(id)`. -/
def retryOne (s : Store) (id : Nat) : Store :=
  addToQueue [id] (updateFileStatus id .pending (some 0) s)

/-- `retryFailedFiles()` of `useFileProcessor.js` (lines 210–225): resets
every FAILED record to PENDING with progress 0, re-enqueues its id and
returns the number of records affected. -/
def retryFailedFiles (s : Store) : Store × Nat :=
  let failedIds := (s.files.filter (fun f => f.status == .failed)).map FileRec.id
  (failedIds.foldl retryOne s, failedIds.length)

/-- The store effect of a successful `reprocessFile(fileId)`
(`useFileProcessor.js` lines 227–251) or of `handleReprocess` in
`ReviewModal.jsx`: the `processWithAI` thunk is dispatched directly, so the
`pending` reducer fires at the call and the `fulfilled` reducer fires at
the response. -/
def reprocessSuccess (id : Nat) (res : AIResult) (t1 t2 : Nat) (s : Store) : Store :=
  aiFulfilled id res t2 (aiPending id t1 s)

/-- One labeled export unit built by `createFileFolder` in `fileUtils.js`:
the transcription text (editable copy falling back to the raw text), the
AI-processed text, the audio payload and the metadata summary's
status/progress fields. -/
structure ExportUnit where
  sourceName : String
  transcriptText : Option String
  aiText : Option String
  audio : Option AudioResult
  metaStatus : FileStatus
  metaProgress : Nat
  deriving DecidableEq, Repr

/-- The unit `createFileFolder` assembles for one record. -/
def exportUnitOf (f : FileRec) : ExportUnit :=
  { sourceName := f.name
    transcriptText := f.transcription.map (fun tr => f.editableTranscription.getD tr.text)
    aiText := f.aiResult.map (fun r => f.editableAIResult.getD r.processedText)
    audio := f.finalAudio
    metaStatus := f.status
    metaProgress := f.progress }

/-- `bulkDownloadFiles(files)` of `fileUtils.js` (lines 136–186): filters
the records to status `'completed'`, throws
`'No completed files to download'` when none is completed, and otherwise
builds one folder per completed record.  It only reads the records. -/
def bulkDownloadFiles (files : List FileRec) : Except String (List ExportUnit) :=
  let completedFiles := files.filter (fun f => f.status == .completed)
  if completedFiles.isEmpty then
    .error "No completed files to download"
  else
    .ok (completedFiles.map exportUnitOf)

/-- `true` for the three in-flight statuses (a remote stage call is
outstanding for the record). -/
def inFlight (st : FileStatus) : Bool :=
  st == .transcribing || st == .aiProcessing || st == .generatingSpeech

/-- Number of records currently in flight. -/
def inFlightCount (s : Store) : Nat :=
  (s.files.filter (fun f => inFlight f.status)).length

/-- `true` when the record with this id (if any) is not in an in-flight
status — the state in which the engine's `finally` block runs. -/
def notInFlightAt (s : Store) (id : Nat) : Bool :=
  match statusOf s id with
  | some st => !(inFlight st)
  | none => true

/-- Labels for the atomic operations of the system: each corresponds to
one dispatch (or dispatch sequence with no suspension point in between)
performed by the queue engine, by a settling remote call, or by a user
action. -/
inductive Act where
  | pickNext (id : Nat)
  | dropMissing (id : Nat)
  | skipReview (id : Nat)
  | startTranscribe (id now : Nat)
  | settleTranscribeOk (id : Nat) (res : TranscriptionResult) (now : Nat)
  | settleTranscribeErr (id : Nat) (msg : String) (now : Nat)
  | startAI (id now : Nat)
  | failNoKey (id : Nat) (msg : String) (now : Nat)
  | settleAIOk (id : Nat) (res : AIResult) (now : Nat)
  | settleAIErr (id : Nat) (msg : String) (now : Nat)
  | deferReview (id : Nat)
  | startSpeech (id now : Nat)
  | settleSpeechOk (id : Nat) (audio : AudioResult) (now : Nat)
  | settleSpeechErr (id : Nat) (msg : String) (now : Nat)
  | engineCatchFail (id : Nat) (msg : String) (now : Nat)
  | finishFile (id : Nat)
  | userAdd (raws : List RawFile) (baseId now : Nat)
  | userRemove (id : Nat)
  | userClearAll
  | userStartBatch (ids : List Nat)
  | userRetry
  | userReprocessStart (id now : Nat)
  | userBatchAudioStart (id now : Nat)
  | userApprove (id : Nat) (edited : Option String)
  | userReject (id : Nat)
  | userEditAIText (id : Nat) (text : String)
  | userSetReviewMode (b : Bool)
  | userSetKey (b : Bool)
  deriving Repr

/-- The manual stage invocations that bypass the engine's
currently-processing slot: `reprocessFile` (and `handleReprocess` in
`ReviewModal.jsx`) dispatch `processWithAI` directly, and
`startBatchAudioGeneration` dispatches `generateSpeech` directly. -/
def Act.manualStage : Act → Bool
  | .userReprocessStart _ _ => true
  | .userBatchAudioStart _ _ => true
  | _ => false

/-- One atomic operation of the system.  Engine steps carry the guards
under which `processNextInQueue` performs them; settle steps fire when the
corresponding remote call is outstanding (the record is in the matching
in-flight status); user steps are available per their source guards. -/
inductive Step : Store → Act → Store → Prop where
  /-- `processNextInQueue` claims the slot for the queue head
  (lines 65–84): slot empty, head present, record exists, and not the
  review-skip branch. -/
  | pickNext {s id} :
      s.currentlyProcessing = none →
      s.processingQueue.head? = some id →
      hasFile s id = true →
      ¬ (s.batchReviewMode = true ∧ statusOf s id = some .reviewPending) →
      Step s (.pickNext id) (setCurrentlyProcessing (some id) s)
  /-- Lines 72–76: a queue head with no record is dropped. -/
  | dropMissing {s id} :
      s.currentlyProcessing = none →
      s.processingQueue.head? = some id →
      hasFile s id = false →
      Step s (.dropMissing id) (removeFromQueue id s)
  /-- Lines 79–82: with review mode on, a REVIEW_PENDING head is removed
  from the queue without processing. -/
  | skipReview {s id} :
      s.currentlyProcessing = none →
      s.processingQueue.head? = some id →
      s.batchReviewMode = true →
      statusOf s id = some .reviewPending →
      Step s (.skipReview id) (removeFromQueue id s)
  /-- Lines 88–92: the engine dispatches `transcribeFile` for the claimed
  PENDING record. -/
  | startTranscribe {s id now} :
      s.currentlyProcessing = some id →
      statusOf s id = some .pending →
      Step s (.startTranscribe id now) (transcribePending id now s)
  | settleTranscribeOk {s id res now} :
      statusOf s id = some .transcribing →
      Step s (.settleTranscribeOk id res now) (transcribeFulfilled id res now s)
  | settleTranscribeErr {s id msg now} :
      statusOf s id = some .transcribing →
      Step s (.settleTranscribeErr id msg now) (transcribeRejected id msg now s)
  /-- Lines 102–114: with a key available, the engine dispatches
  `processWithAI` for the claimed TRANSCRIBED record. -/
  | startAI {s id now} :
      s.currentlyProcessing = some id →
      statusOf s id = some .transcribed →
      s.hasApiKey = true →
      Step s (.startAI id now) (aiPending id now s)
  /-- Lines 105–107 then 143–148: with no key available the engine throws
  before dispatching the stage and the catch block marks the record
  FAILED. -/
  | failNoKey {s id msg now} :
      s.currentlyProcessing = some id →
      statusOf s id = some .transcribed →
      s.hasApiKey = false →
      Step s (.failNoKey id msg now) (markFileFailed id msg now s)
  | settleAIOk {s id res now} :
      statusOf s id = some .aiProcessing →
      Step s (.settleAIOk id res now) (aiFulfilled id res now s)
  | settleAIErr {s id msg now} :
      statusOf s id = some .aiProcessing →
      Step s (.settleAIErr id msg now) (aiRejected id msg now s)
  /-- Spec §4.2 review deferral composed with lines 126–131: the
  AI_PROCESSED record moves to REVIEW_PENDING, enters the ReviewQueue,
  leaves the ProcessingQueue, and the slot is cleared. -/
  | deferReview {s id} :
      s.currentlyProcessing = some id →
      s.batchReviewMode = true →
      statusOf s id = some .aiProcessed →
      Step s (.deferReview id)
        (setCurrentlyProcessing none (removeFromQueue id (deferToReview id s)))
  /-- Lines 133–141: the engine dispatches `generateSpeech` for an
  APPROVED record, or an AI_PROCESSED one when review mode is off. -/
  | startSpeech {s id now} :
      s.currentlyProcessing = some id →
      (statusOf s id = some .approved ∨
        (s.batchReviewMode = false ∧ statusOf s id = some .aiProcessed)) →
      Step s (.startSpeech id now) (speechPending id now s)
  | settleSpeechOk {s id audio now} :
      statusOf s id = some .generatingSpeech →
      Step s (.settleSpeechOk id audio now) (speechFulfilled id audio now s)
  | settleSpeechErr {s id msg now} :
      statusOf s id = some .generatingSpeech →
      Step s (.settleSpeechErr id msg now) (speechRejected id msg now s)
  /-- Lines 143–148: after a stage rejection the engine's catch block also
  dispatches `markFileFailed` (the record is already FAILED, or gone). -/
  | engineCatchFail {s id msg now} :
      s.currentlyProcessing = some id →
      (statusOf s id = some .failed ∨ statusOf s id = none) →
      Step s (.engineCatchFail id msg now) (markFileFailed id msg now s)
  /-- Lines 149–153: the `finally` block removes the id from the queue and
  clears the slot; it runs only once every dispatched call has settled. -/
  | finishFile {s id} :
      s.currentlyProcessing = some id →
      notInFlightAt s id = true →
      Step s (.finishFile id) (setCurrentlyProcessing none (removeFromQueue id s))
  /-- `addFiles` after validation; ids are fresh (`Date.now()` exceeds all
  previously assigned ids). -/
  | userAdd {s raws baseId now} :
      (∀ f ∈ s.files, f.id < baseId) →
      Step s (.userAdd raws baseId now) (addFiles raws baseId now s)
  | userRemove {s id} :
      Step s (.userRemove id) (removeFile id s)
  | userClearAll {s} :
      Step s .userClearAll (clearAllFiles s)
  /-- `startBatchProcessing` mutates the store only when it does not
  throw. -/
  | userStartBatch {s ids s' n} :
      startBatchProcessing ids s = (s', .ok n) →
      Step s (.userStartBatch ids) s'
  | userRetry {s} :
      Step s .userRetry (retryFailedFiles s).1
  /-- `reprocessFile` (lines 227–251): available for the records the spec
  allows to be reprocessed (AI_PROCESSED or REVIEW_PENDING), requires a
  key, and dispatches `processWithAI` with no slot guard. -/
  | userReprocessStart {s id now} :
      (statusOf s id = some .aiProcessed ∨ statusOf s id = some .reviewPending) →
      s.hasApiKey = true →
      Step s (.userReprocessStart id now) (aiPending id now s)
  /-- `startBatchAudioGeneration` (lines 253–278): dispatches
  `generateSpeech` for an APPROVED record in `approvedFiles`, with no slot
  guard. -/
  | userBatchAudioStart {s id now} :
      statusOf s id = some .approved →
      s.approvedFiles.contains id = true →
      Step s (.userBatchAudioStart id now) (speechPending id now s)
  | userApprove {s id edited} :
      statusOf s id = some .reviewPending →
      Step s (.userApprove id edited) (handleApprove id edited s)
  | userReject {s id} :
      statusOf s id = some .reviewPending →
      Step s (.userReject id) (handleReject id s)
  | userEditAIText {s id text} :
      Step s (.userEditAIText id text) (updateEditableAIResult id text s)
  | userSetReviewMode {s b} :
      Step s (.userSetReviewMode b) { s with batchReviewMode := b }
  | userSetKey {s b} :
      Step s (.userSetKey b) { s with hasApiKey := b }

/-- The initial slice state (`initialState` of `fileProcessingSlice`,
extended with the review fields empty, review mode off and no key). -/
def initStore : Store :=
  { files := []
    processingQueue := []
    currentlyProcessing := none
    reviewQueue := []
    approvedFiles := []
    batchReviewMode := false
    hasApiKey := false
    stats := { totalFiles := 0, completedFiles := 0, failedFiles := 0 } }

/-- `ReachVia s acts s'`: the trace `acts` leads from `s` to `s'`. -/
inductive ReachVia : Store → List Act → Store → Prop where
  | nil {s} : ReachVia s [] s
  | cons {s a s' acts s''} : Step s a s' → ReachVia s' acts s'' →
      ReachVia s (a :: acts) s''

/-- A store the system can be in. -/
def Reachable (s : Store) : Prop :=
  ∃ acts, ReachVia initStore acts s

/-- A concrete record used by the witnesses below. -/
def sampleFile (id : Nat) (st : FileStatus) (p : Nat) : FileRec :=
  { id := id
    name := "a.mp3"
    size := 100
    ftype := "audio/mp3"
    status := st
    progress := p
    transcription := none
    editableTranscription := none
    aiResult := none
    editableAIResult := none
    finalAudio := none
    timestamps := { added := 0 }
    errors := [] }

/-! ## C5 — transcription failure -/

/-- Number of error entries recorded for a given stage. -/
def countStage (st : String) (errs : List ErrorEntry) : Nat :=
  (errs.filter (fun e => e.stage == some st)).length

/-! ## C8 — manual reprocess -/

/-- C8 counterexample input: one REVIEW_PENDING record. -/
def c8store : Store :=
  { initStore with
    files := [sampleFile 1 .reviewPending 66]
    reviewQueue := [1]
    batchReviewMode := true }

/-- The rewrite result returned by the reprocess call in the C8
counterexample. -/
def c8res : AIResult :=
  { processedText := "new"
    originalText := "orig"
    promptUsed := "prompt"
    model := "gpt-3.5-turbo"
    tokensUsed := 7 }

/-- The concrete store of the C4 witness: one REVIEW_PENDING record, in
the ReviewQueue, review mode on. -/
def c4store : Store :=
  { initStore with
    files := [sampleFile 1 .reviewPending 66]
    reviewQueue := [1]
    batchReviewMode := true }

/-! ## C7 — retry of failed files -/

/-- The per-record effect of `retryFailedFiles`: status PENDING,
progress 0, everything else untouched. -/
def resetRec (f : FileRec) : FileRec :=
  { f with status := .pending, progress := 0 }

/-- The concrete store of the C7 witness: one FAILED record at progress 33
and one COMPLETED record. -/
def c7store : Store :=
  { initStore with
    files := [sampleFile 1 .failed 33, sampleFile 2 .completed 100] }

/-- The concrete store of the C6 witness: one PENDING record and one
COMPLETED record. -/
def c6store : Store :=
  { initStore with
    files := [sampleFile 1 .pending 0, sampleFile 2 .completed 100] }

/-! ## The id-uniqueness invariant -/

/-- Record ids are pairwise distinct — maintained because fresh batches
get ids above every existing one. -/
def WF (s : Store) : Prop :=
  (s.files.map FileRec.id).Nodup

/-! ## The single-flight invariant -/

/-- Every in-flight record is the one held by the currently-processing
slot. -/
def SlotInv (s : Store) : Prop :=
  ∀ f ∈ s.files, inFlight f.status = true → s.currentlyProcessing = some f.id

/-- A raw upload used in the concrete traces. -/
def rawA : RawFile := { name := "a.mp3", size := 100, ftype := "audio/mp3" }

/-- A second raw upload used in the concrete traces. -/
def rawB : RawFile := { name := "b.mp3", size := 200, ftype := "audio/mp3" }

/-- Trace of the C1 witness: add one file, start the batch, let the engine
claim it and start transcription. -/
def w1acts : List Act :=
  [.userSetKey true, .userAdd [rawA] 1 0, .userStartBatch [1],
   .pickNext 1, .startTranscribe 1 5]

/-- End state of the C1 witness trace. -/
def w1end : Store :=
  transcribePending 1 5 (setCurrentlyProcessing (some 1)
    ((startBatchProcessing [1] (addFiles [rawA] 1 0
      { initStore with hasApiKey := true })).1))

/-- The rewrite result used in the C1 counterexample trace. -/
def c1res : AIResult :=
  { processedText := "p"
    originalText := "o"
    promptUsed := "q"
    model := "gpt-3.5-turbo"
    tokensUsed := 5 }

/-- The C1 counterexample trace: drive file 2 to AI_PROCESSED through the
engine, then let the engine start transcribing file 1, then manually
reprocess file 2. -/
def c1acts : List Act :=
  [.userSetKey true, .userAdd [rawA, rawB] 1 0, .userStartBatch [2],
   .pickNext 2, .startTranscribe 2 1, .settleTranscribeOk 2 ⟨"text", 3, 2⟩ 2,
   .startAI 2 3, .settleAIOk 2 c1res 4, .finishFile 2,
   .userStartBatch [1], .pickNext 1, .startTranscribe 1 5,
   .userReprocessStart 2 6]

/-- End state of the C1 counterexample trace: file 1 TRANSCRIBING and
file 2 AI_PROCESSING at the same instant. -/
def c1end : Store :=
  aiPending 2 6 (transcribePending 1 5 (setCurrentlyProcessing (some 1)
    ((startBatchProcessing [1] (setCurrentlyProcessing none (removeFromQueue 2
      (aiFulfilled 2 c1res 4 (aiPending 2 3 (transcribeFulfilled 2 ⟨"text", 3, 2⟩ 2
        (transcribePending 2 1 (setCurrentlyProcessing (some 2)
          ((startBatchProcessing [2] (addFiles [rawA, rawB] 1 0
            { initStore with hasApiKey := true })).1))))))))).1)))

/-- The status edges of the claim's reading of the §4.2 state machine:
the main chain, the optional review detour, FAILED from the three
in-flight states, and FAILED → PENDING by retry. -/
def legalEdge (a b : FileStatus) : Bool :=
  match a, b with
  | .pending, .transcribing => true
  | .transcribing, .transcribed => true
  | .transcribed, .aiProcessing => true
  | .aiProcessing, .aiProcessed => true
  | .aiProcessed, .reviewPending => true
  | .reviewPending, .approved => true
  | .reviewPending, .rejected => true
  | .approved, .generatingSpeech => true
  | .aiProcessed, .generatingSpeech => true
  | .generatingSpeech, .completed => true
  | .transcribing, .failed => true
  | .aiProcessing, .failed => true
  | .generatingSpeech, .failed => true
  | .failed, .pending => true
  | _, _ => false

/-- The edges the code actually follows: the claim's edges plus
TRANSCRIBED → FAILED (missing credential before the Rewrite stage) and
the re-entry into AI_PROCESSING from AI_PROCESSED or REVIEW_PENDING
performed by a manual reprocess. -/
def legalEdgeAmended (a b : FileStatus) : Bool :=
  legalEdge a b ||
  (a == .transcribed && b == .failed) ||
  (a == .aiProcessed && b == .aiProcessing) ||
  (a == .reviewPending && b == .aiProcessing)

/-- Trace shared by the C2 and C3 counterexamples: one file added and
transcribed through the engine, with no API key configured. -/
def c2acts : List Act :=
  [.userAdd [rawA] 1 0, .userStartBatch [1], .pickNext 1,
   .startTranscribe 1 1, .settleTranscribeOk 1 ⟨"text", 3, 2⟩ 2]

/-- State after `c2acts`: file 1 TRANSCRIBED at progress 33, slot held,
no key available. -/
def c2mid : Store :=
  transcribeFulfilled 1 ⟨"text", 3, 2⟩ 2 (transcribePending 1 1
    (setCurrentlyProcessing (some 1)
      ((startBatchProcessing [1] (addFiles [rawA] 1 0 initStore)).1)))

/-- State after the engine's missing-key failure: file 1 FAILED directly
from TRANSCRIBED, still at progress 33. -/
def c2end : Store := markFileFailed 1 "No OpenAI API key available" 3 c2mid

/-! ## C3 — progress monotonicity -/

/-- The progress values a record can carry in each status on reachable
stores (enough to bound every progress write from below). -/
def progBound (st : FileStatus) (p : Nat) : Prop :=
  match st with
  | .pending => p ≤ 33
  | .transcribing => p ≤ 33
  | .transcribed => p ≤ 66
  | .aiProcessing => p ≤ 66
  | .aiProcessed => p ≤ 66
  | .reviewPending => p ≤ 66
  | .approved => p ≤ 66
  | .generatingSpeech => p ≤ 66
  | _ => True

/-- Every record's progress respects `progBound`. -/
def ProgInv (s : Store) : Prop :=
  ∀ f ∈ s.files, progBound f.status f.progress

/-- End state of the C3 counterexample: the retry after the missing-key
failure, which resets the FAILED record from progress 33 back to 0. -/
def c3end : Store := (retryFailedFiles c2end).1

/-! ## Basic lemmas about record lookup and first-match update -/

theorem hasFile_false_iff (s : Store) (id : Nat) :
    hasFile s id = false ↔ findFile s id = none := by
  simp [hasFile, findFile, List.any_eq_false, List.find?_eq_none]

theorem hasFile_true_of_findFile {s : Store} {id : Nat} {f : FileRec}
    (h : findFile s id = some f) : hasFile s id = true := by
  by_contra hb
  rw [Bool.not_eq_true, hasFile_false_iff] at hb
  rw [h] at hb
  cases hb

theorem findFile_mem {s : Store} {id : Nat} {f : FileRec}
    (h : findFile s id = some f) : f ∈ s.files ∧ f.id = id := by
  refine ⟨List.mem_of_find?_eq_some h, ?_⟩
  have := List.find?_some h
  simpa using this

theorem find?_updateFirst (id : Nat) (g : FileRec → FileRec)
    (hg : ∀ f, (g f).id = f.id) (j : Nat) :
    ∀ l : List FileRec,
      (updateFirst id g l).find? (fun f => f.id == j) =
        if j = id then (l.find? (fun f => f.id == j)).map g
        else l.find? (fun f => f.id == j) := by
  intro l
  induction l with
  | nil => by_cases hj : j = id <;> simp [updateFirst, hj]
  | cons a as ih =>
    by_cases ha : (a.id == id) = true
    · have haid : a.id = id := by simpa using ha
      by_cases hj : j = id
      · subst hj
        simp [updateFirst, ha, List.find?_cons, hg, haid]
      · have : (a.id == j) = false := by simp [haid]; omega
        have hg' : ((g a).id == j) = false := by rw [hg]; exact this
        simp [updateFirst, ha, List.find?_cons, this, hg', hj]
    · have ha' : (a.id == id) = false := by simpa using ha
      by_cases hj : j = id
      · subst hj
        simp [updateFirst, ha', List.find?_cons, ih]
      · simp [updateFirst, ha', List.find?_cons, ih, hj]

theorem ids_updateFirst (id : Nat) (g : FileRec → FileRec)
    (hg : ∀ f, (g f).id = f.id) :
    ∀ l : List FileRec, (updateFirst id g l).map FileRec.id = l.map FileRec.id := by
  intro l
  induction l with
  | nil => rfl
  | cons a as ih =>
    by_cases ha : (a.id == id) = true <;> simp [updateFirst, ha, hg, ih]

theorem mem_updateFirst_strong {id : Nat} {g : FileRec → FileRec} {f' : FileRec} :
    ∀ {l : List FileRec}, f' ∈ updateFirst id g l →
      f' ∈ l ∨ ∃ f, l.find? (fun x => x.id == id) = some f ∧ f' = g f := by
  intro l
  induction l with
  | nil => intro h; cases h
  | cons a as ih =>
    intro h
    by_cases ha : (a.id == id) = true
    · rw [updateFirst, if_pos ha] at h
      rcases List.mem_cons.mp h with h1 | h2
      · exact Or.inr ⟨a, by simp [List.find?_cons, ha], h1⟩
      · exact Or.inl (List.mem_cons_of_mem a h2)
    · rw [updateFirst, if_neg ha] at h
      rcases List.mem_cons.mp h with h1 | h2
      · exact Or.inl (h1 ▸ List.mem_cons_self a as)
      · rcases ih h2 with h3 | ⟨f, hf, hgf⟩
        · exact Or.inl (List.mem_cons_of_mem a h3)
        · refine Or.inr ⟨f, ?_, hgf⟩
          have ha' : (a.id == id) = false := by simpa using ha
          simp [List.find?_cons, ha', hf]

theorem find?_eq_of_nodup :
    ∀ {l : List FileRec}, (l.map FileRec.id).Nodup →
      ∀ {f : FileRec}, f ∈ l → ∀ {id : Nat}, f.id = id →
        l.find? (fun x => x.id == id) = some f := by
  intro l
  induction l with
  | nil => intro _ f hf; cases hf
  | cons a as ih =>
    intro hnd f hf id hid
    rw [List.map_cons, List.nodup_cons] at hnd
    rcases List.mem_cons.mp hf with rfl | hmem
    · simp [List.find?_cons, hid]
    · have hne : (a.id == id) = false := by
        simp only [beq_eq_false_iff_ne, ne_eq]
        intro h
        exact hnd.1 (h ▸ hid ▸ List.mem_map_of_mem FileRec.id hmem)
      simp [List.find?_cons, hne, ih hnd.2 hmem hid]

/-- The lookup after a `guardedUpdate` is the lookup before it with the
rewrite mapped over the matched id. -/
theorem findFile_guardedUpdate (id : Nat) (g : FileRec → FileRec)
    (hg : ∀ f, (g f).id = f.id) (k : Store → Store) (s : Store) (j : Nat) :
    findFile (guardedUpdate id g k s) j =
      if j = id then (findFile s j).map g else findFile s j := by
  unfold guardedUpdate
  by_cases h : hasFile s id = true
  · rw [if_pos h]
    show (updateFirst id g s.files).find? (fun f => f.id == j) = _
    rw [find?_updateFirst id g hg j]
    rfl
  · rw [if_neg h]
    have hnone : findFile s id = none := by
      rw [← hasFile_false_iff]
      exact Bool.not_eq_true _ ▸ h
    by_cases hj : j = id
    · subst hj
      rw [if_pos rfl, hnone]
      rfl
    · rw [if_neg hj]

/-- A `guardedUpdate` never changes the sequence of record ids. -/
theorem ids_guardedUpdate (id : Nat) (g : FileRec → FileRec)
    (hg : ∀ f, (g f).id = f.id) (k : Store → Store) (s : Store) :
    (guardedUpdate id g k s).files.map FileRec.id = s.files.map FileRec.id := by
  unfold guardedUpdate
  by_cases h : hasFile s id = true
  · rw [if_pos h]
    exact ids_updateFirst id g hg s.files
  · rw [if_neg h]

/-- Every record after a `guardedUpdate` is either an untouched old
record or the rewrite of the looked-up record. -/
theorem mem_files_guardedUpdate {id : Nat} {g : FileRec → FileRec}
    {k : Store → Store} {s : Store} {f' : FileRec}
    (h : f' ∈ (guardedUpdate id g k s).files) :
    f' ∈ s.files ∨ ∃ f, findFile s id = some f ∧ f' = g f := by
  unfold guardedUpdate at h
  by_cases hb : hasFile s id = true
  · rw [if_pos hb] at h
    exact mem_updateFirst_strong h
  · rw [if_neg hb] at h
    exact Or.inl h

theorem queue_guardedUpdate (id : Nat) (g : FileRec → FileRec)
    (k : Store → Store) (s : Store)
    (hk : (k s).processingQueue = s.processingQueue) :
    (guardedUpdate id g k s).processingQueue = s.processingQueue := by
  unfold guardedUpdate
  by_cases h : hasFile s id = true
  · rw [if_pos h]; exact hk
  · rw [if_neg h]

theorem slot_guardedUpdate (id : Nat) (g : FileRec → FileRec)
    (k : Store → Store) (s : Store)
    (hk : (k s).currentlyProcessing = s.currentlyProcessing) :
    (guardedUpdate id g k s).currentlyProcessing = s.currentlyProcessing := by
  unfold guardedUpdate
  by_cases h : hasFile s id = true
  · rw [if_pos h]; exact hk
  · rw [if_neg h]

/-! ## Lookup behaviour of the individual reducers -/

theorem findFile_updateFileStatus (id : Nat) (st : FileStatus) (p : Option Nat)
    (s : Store) (j : Nat) :
    findFile (updateFileStatus id st p s) j =
      if j = id then (findFile s j).map (gUpdateStatus st p) else findFile s j :=
  findFile_guardedUpdate id (gUpdateStatus st p) (fun _ => rfl) (fun t => t) s j

theorem findFile_updateFileTranscription (id : Nat) (tr : TranscriptionResult)
    (ed : Option String) (s : Store) (j : Nat) :
    findFile (updateFileTranscription id tr ed s) j =
      if j = id then (findFile s j).map (gUpdateTranscription tr ed) else findFile s j :=
  findFile_guardedUpdate id (gUpdateTranscription tr ed) (fun _ => rfl) (fun t => t) s j

theorem findFile_updateFileAIResult (id : Nat) (res : AIResult)
    (ed : Option String) (s : Store) (j : Nat) :
    findFile (updateFileAIResult id res ed s) j =
      if j = id then (findFile s j).map (gUpdateAIResult res ed) else findFile s j :=
  findFile_guardedUpdate id (gUpdateAIResult res ed) (fun _ => rfl) (fun t => t) s j

theorem findFile_updateFileFinalAudio (id : Nat) (audio : AudioResult)
    (s : Store) (j : Nat) :
    findFile (updateFileFinalAudio id audio s) j =
      if j = id then (findFile s j).map (gUpdateFinalAudio audio) else findFile s j :=
  findFile_guardedUpdate id (gUpdateFinalAudio audio) (fun _ => rfl) (fun t => t) s j

theorem findFile_markFileFailed (id : Nat) (msg : String) (now : Nat)
    (s : Store) (j : Nat) :
    findFile (markFileFailed id msg now s) j =
      if j = id then (findFile s j).map (gMarkFailed msg now) else findFile s j :=
  findFile_guardedUpdate id (gMarkFailed msg now) (fun _ => rfl) bumpFailed s j

theorem findFile_transcribePending (id now : Nat) (s : Store) (j : Nat) :
    findFile (transcribePending id now s) j =
      if j = id then (findFile s j).map (gTranscribePending now) else findFile s j :=
  findFile_guardedUpdate id (gTranscribePending now) (fun _ => rfl) (fun t => t) s j

theorem findFile_transcribeFulfilled (id : Nat) (res : TranscriptionResult)
    (now : Nat) (s : Store) (j : Nat) :
    findFile (transcribeFulfilled id res now s) j =
      if j = id then (findFile s j).map (gTranscribeFulfilled res now) else findFile s j :=
  findFile_guardedUpdate id (gTranscribeFulfilled res now) (fun _ => rfl) (fun t => t) s j

theorem findFile_transcribeRejected (id : Nat) (msg : String) (now : Nat)
    (s : Store) (j : Nat) :
    findFile (transcribeRejected id msg now s) j =
      if j = id then (findFile s j).map (gStageRejected "transcription" msg now)
      else findFile s j :=
  findFile_guardedUpdate id (gStageRejected "transcription" msg now) (fun _ => rfl)
    bumpFailed s j

theorem findFile_aiPending (id now : Nat) (s : Store) (j : Nat) :
    findFile (aiPending id now s) j =
      if j = id then (findFile s j).map (gAIPending now) else findFile s j :=
  findFile_guardedUpdate id (gAIPending now) (fun _ => rfl) (fun t => t) s j

theorem findFile_aiFulfilled (id : Nat) (res : AIResult) (now : Nat)
    (s : Store) (j : Nat) :
    findFile (aiFulfilled id res now s) j =
      if j = id then (findFile s j).map (gAIFulfilled res now) else findFile s j :=
  findFile_guardedUpdate id (gAIFulfilled res now) (fun _ => rfl) (fun t => t) s j

theorem findFile_aiRejected (id : Nat) (msg : String) (now : Nat)
    (s : Store) (j : Nat) :
    findFile (aiRejected id msg now s) j =
      if j = id then (findFile s j).map (gStageRejected "ai_processing" msg now)
      else findFile s j :=
  findFile_guardedUpdate id (gStageRejected "ai_processing" msg now) (fun _ => rfl)
    bumpFailed s j

theorem findFile_speechPending (id now : Nat) (s : Store) (j : Nat) :
    findFile (speechPending id now s) j =
      if j = id then (findFile s j).map (gSpeechPending now) else findFile s j :=
  findFile_guardedUpdate id (gSpeechPending now) (fun _ => rfl) (fun t => t) s j

theorem findFile_speechFulfilled (id : Nat) (audio : AudioResult) (now : Nat)
    (s : Store) (j : Nat) :
    findFile (speechFulfilled id audio now s) j =
      if j = id then (findFile s j).map (gSpeechFulfilled audio now) else findFile s j :=
  findFile_guardedUpdate id (gSpeechFulfilled audio now) (fun _ => rfl) bumpCompleted s j

theorem findFile_speechRejected (id : Nat) (msg : String) (now : Nat)
    (s : Store) (j : Nat) :
    findFile (speechRejected id msg now s) j =
      if j = id then (findFile s j).map (gStageRejected "speech_generation" msg now)
      else findFile s j :=
  findFile_guardedUpdate id (gStageRejected "speech_generation" msg now) (fun _ => rfl)
    bumpFailed s j

theorem findFile_approveFile (id : Nat) (s : Store) (j : Nat) :
    findFile (approveFile id s) j =
      if j = id then (findFile s j).map (fun f => { f with status := .approved })
      else findFile s j :=
  findFile_guardedUpdate id (fun f => { f with status := .approved }) (fun _ => rfl) _ s j

theorem findFile_rejectFile (id : Nat) (s : Store) (j : Nat) :
    findFile (rejectFile id s) j =
      if j = id then (findFile s j).map (fun f => { f with status := .rejected })
      else findFile s j :=
  findFile_guardedUpdate id (fun f => { f with status := .rejected }) (fun _ => rfl) _ s j

theorem findFile_updateEditableAIResult (id : Nat) (text : String)
    (s : Store) (j : Nat) :
    findFile (updateEditableAIResult id text s) j =
      if j = id then (findFile s j).map (fun f => { f with editableAIResult := some text })
      else findFile s j :=
  findFile_guardedUpdate id (fun f => { f with editableAIResult := some text })
    (fun _ => rfl) (fun t => t) s j

theorem findFile_deferToReview (id : Nat) (s : Store) (j : Nat) :
    findFile (deferToReview id s) j =
      if j = id then (findFile s j).map (fun f => { f with status := .reviewPending })
      else findFile s j :=
  findFile_guardedUpdate id (fun f => { f with status := .reviewPending })
    (fun _ => rfl) _ s j

theorem findFile_removeFromReviewQueue (id : Nat) (s : Store) (j : Nat) :
    findFile (removeFromReviewQueue id s) j = findFile s j := rfl

/-! ## C10 — store operations are no-ops on a missing id -/

/-- C10: every record-targeting store operation applied with an id for
which no FileRecord exists leaves the entire store state unchanged. -/
theorem missing_id_noop (s : Store) (id : Nat) (h : findFile s id = none)
    (st : FileStatus) (p : Option Nat) (tr : TranscriptionResult)
    (ed : Option String) (res : AIResult) (audio : AudioResult)
    (msg : String) (now : Nat) :
    updateFileStatus id st p s = s ∧
    updateFileTranscription id tr ed s = s ∧
    updateFileAIResult id res ed s = s ∧
    updateFileFinalAudio id audio s = s ∧
    markFileFailed id msg now s = s ∧
    markFileCompleted id now s = s ∧
    transcribePending id now s = s ∧
    transcribeFulfilled id tr now s = s ∧
    transcribeRejected id msg now s = s ∧
    aiPending id now s = s ∧
    aiFulfilled id res now s = s ∧
    aiRejected id msg now s = s ∧
    speechPending id now s = s ∧
    speechFulfilled id audio now s = s ∧
    speechRejected id msg now s = s := by
  have hb : hasFile s id = false := (hasFile_false_iff s id).mpr h
  refine ⟨?_, ?_, ?_, ?_, ?_, ?_, ?_, ?_, ?_, ?_, ?_, ?_, ?_, ?_, ?_⟩
  · simp [updateFileStatus, guardedUpdate, hb]
  · simp [updateFileTranscription, guardedUpdate, hb]
  · simp [updateFileAIResult, guardedUpdate, hb]
  · simp [updateFileFinalAudio, guardedUpdate, hb]
  · simp [markFileFailed, guardedUpdate, hb]
  · simp [markFileCompleted, h]
  · simp [transcribePending, guardedUpdate, hb]
  · simp [transcribeFulfilled, guardedUpdate, hb]
  · simp [transcribeRejected, guardedUpdate, hb]
  · simp [aiPending, guardedUpdate, hb]
  · simp [aiFulfilled, guardedUpdate, hb]
  · simp [aiRejected, guardedUpdate, hb]
  · simp [speechPending, guardedUpdate, hb]
  · simp [speechFulfilled, guardedUpdate, hb]
  · simp [speechRejected, guardedUpdate, hb]

/-- Witness for C10 at the empty store and id 7. -/
theorem missing_id_noop_witness :
    findFile initStore 7 = none ∧
    updateFileStatus 7 .pending none initStore = initStore :=
  ⟨rfl, (missing_id_noop initStore 7 rfl .pending none ⟨"", 0, 0⟩ none
    ⟨"", "", "", "", 0⟩ ⟨"", ""⟩ "" 0).1⟩

/-! ## C9 — bulk export: exactly the COMPLETED records, explicit empty error -/

/-- C9: bulk export contains exactly the COMPLETED records (one unit per
record, in store order), and fails with the explicit
`'No completed files to download'` error precisely when no record is
COMPLETED; it only reads the records. -/
theorem bulkDownload_spec (files : List FileRec) :
    (bulkDownloadFiles files = .error "No completed files to download" ↔
      ∀ f ∈ files, f.status ≠ .completed) ∧
    (∀ us, bulkDownloadFiles files = .ok us →
      us = (files.filter (fun f => f.status == .completed)).map exportUnitOf ∧
      ∀ u ∈ us, ∃ f ∈ files, f.status = .completed ∧ u = exportUnitOf f) := by
  unfold bulkDownloadFiles
  by_cases h : (files.filter (fun f => f.status == .completed)).isEmpty = true
  · rw [List.isEmpty_iff] at h
    constructor
    · simp only [h, List.isEmpty_nil, if_true]
      constructor
      · intro _ f hf hc
        have : f ∈ files.filter (fun f => f.status == .completed) :=
          List.mem_filter.mpr ⟨hf, by simp [hc]⟩
        rw [h] at this
        cases this
      · intro _; trivial
    · intro us hus
      simp only [h, List.isEmpty_nil, if_true] at hus
      cases hus
  · have h' : (files.filter (fun f => f.status == .completed)).isEmpty = false :=
      Bool.not_eq_true _ ▸ h
    constructor
    · simp only [h', Bool.false_eq_true, if_false]
      constructor
      · intro hcon; cases hcon
      · intro hall
        rcases List.isEmpty_eq_false_iff_exists_mem.mp h' with ⟨f, hf⟩
        rcases List.mem_filter.mp hf with ⟨hmem, hstat⟩
        exact absurd (by simpa using hstat) (hall f hmem)
    · intro us hus
      simp only [h', Bool.false_eq_true, if_false, Except.ok.injEq] at hus
      subst hus
      refine ⟨rfl, ?_⟩
      intro u hu
      rcases List.mem_map.mp hu with ⟨f, hf, rfl⟩
      rcases List.mem_filter.mp hf with ⟨hmem, hstat⟩
      exact ⟨f, hmem, by simpa using hstat, rfl⟩

/-- Witness for C9: a PENDING-only collection yields the explicit error. -/
theorem bulkDownload_spec_witness :
    bulkDownloadFiles [sampleFile 1 .pending 0] = .error "No completed files to download" :=
  (bulkDownload_spec [sampleFile 1 .pending 0]).1.mpr (by decide)

/-- C5: when the Transcribe stage fails for a record (the `rejected`
reducer fires and the engine's catch block then dispatches
`markFileFailed`), the record ends FAILED, exactly one error entry with
stage `"transcription"` is appended (together with one stage-less entry
from `markFileFailed`), and its progress is unchanged. -/
theorem transcribeFailure_spec (s : Store) (id : Nat) (f : FileRec)
    (hf : findFile s id = some f) (_hst : f.status = .transcribing)
    (m1 m2 : String) (t1 t2 : Nat) :
    ∃ f', findFile (markFileFailed id m2 t2 (transcribeRejected id m1 t1 s)) id = some f' ∧
      f'.status = .failed ∧
      f'.progress = f.progress ∧
      f'.errors = f.errors ++ [⟨some "transcription", m1, t1⟩, ⟨none, m2, t2⟩] ∧
      countStage "transcription" f'.errors = countStage "transcription" f.errors + 1 := by
  have h1 := findFile_transcribeRejected id m1 t1 s id
  rw [if_pos rfl, hf] at h1
  have h2 := findFile_markFileFailed id m2 t2 (transcribeRejected id m1 t1 s) id
  rw [if_pos rfl, h1] at h2
  refine ⟨_, h2, rfl, rfl, by simp [gMarkFailed, gStageRejected], ?_⟩
  unfold countStage
  simp [gMarkFailed, gStageRejected, List.filter_append]

/-- Witness for C5 at a concrete store holding one TRANSCRIBING record. -/
theorem transcribeFailure_witness :
    findFile { initStore with files := [sampleFile 1 .transcribing 0] } 1 =
      some (sampleFile 1 .transcribing 0) ∧
    (sampleFile 1 .transcribing 0).status = .transcribing ∧
    (∃ f', findFile (markFileFailed 1 "boom2" 9 (transcribeRejected 1 "boom" 8
        { initStore with files := [sampleFile 1 .transcribing 0] })) 1 = some f' ∧
      f'.status = .failed ∧
      f'.progress = (sampleFile 1 .transcribing 0).progress ∧
      f'.errors = (sampleFile 1 .transcribing 0).errors ++
        [⟨some "transcription", "boom", 8⟩, ⟨none, "boom2", 9⟩] ∧
      countStage "transcription" f'.errors =
        countStage "transcription" (sampleFile 1 .transcribing 0).errors + 1) :=
  ⟨rfl, rfl, transcribeFailure_spec
    { initStore with files := [sampleFile 1 .transcribing 0] } 1
    (sampleFile 1 .transcribing 0) rfl rfl "boom" "boom2" 8 9⟩

/-- C8 counterexample: on the concrete store `c8store` holding one
REVIEW_PENDING record, a successful manual reprocess moves the record's
status to AI_PROCESSED (not its pre-reprocess value REVIEW_PENDING), and
also overwrites the aiProcessing timestamps — fields other than
`aiResult`/`editableAIResult`. -/
theorem reprocess_changes_status_cex :
    (findFile c8store 1).map FileRec.status = some .reviewPending ∧
    (findFile (reprocessSuccess 1 c8res 5 6 c8store) 1).map FileRec.status =
      some .aiProcessed ∧
    (findFile c8store 1).map (fun f => f.timestamps.aiProcessingEnd) = some none ∧
    (findFile (reprocessSuccess 1 c8res 5 6 c8store) 1).map
      (fun f => f.timestamps.aiProcessingEnd) = some (some 6) :=
  ⟨rfl, rfl, rfl, rfl⟩

/-- C8 amended: for a record in AI_PROCESSED with progress 66 (its value
on every pipeline path into AI_PROCESSED), a successful manual reprocess
overwrites `aiResult`, `editableAIResult` and the aiProcessing
timestamps, and leaves every other field — in particular `status` and
`progress` — at its pre-reprocess value; a REVIEW_PENDING record instead
ends in AI_PROCESSED. -/
theorem reprocess_frame (s : Store) (id : Nat) (f : FileRec)
    (hf : findFile s id = some f) (hst : f.status = .aiProcessed)
    (hp : f.progress = 66) (res : AIResult) (t1 t2 : Nat) :
    ∃ f', findFile (reprocessSuccess id res t1 t2 s) id = some f' ∧
      f'.status = f.status ∧
      f'.progress = f.progress ∧
      f'.aiResult = some res ∧
      f'.editableAIResult = some res.processedText ∧
      f'.id = f.id ∧ f'.name = f.name ∧ f'.size = f.size ∧ f'.ftype = f.ftype ∧
      f'.transcription = f.transcription ∧
      f'.editableTranscription = f.editableTranscription ∧
      f'.finalAudio = f.finalAudio ∧
      f'.errors = f.errors ∧
      f'.timestamps = { f.timestamps with
        aiProcessingStart := some t1, aiProcessingEnd := some t2 } := by
  have h1 := findFile_aiPending id t1 s id
  rw [if_pos rfl, hf] at h1
  have h2 := findFile_aiFulfilled id res t2 (aiPending id t1 s) id
  rw [if_pos rfl, h1] at h2
  exact ⟨_, h2, hst.symm, hp.symm, rfl, rfl, rfl, rfl, rfl, rfl, rfl, rfl,
    rfl, rfl, rfl⟩

/-- Witness for the amended C8 at a concrete AI_PROCESSED record. -/
theorem reprocess_frame_witness :
    findFile { initStore with files := [sampleFile 2 .aiProcessed 66] } 2 =
      some (sampleFile 2 .aiProcessed 66) ∧
    (sampleFile 2 .aiProcessed 66).status = .aiProcessed ∧
    (sampleFile 2 .aiProcessed 66).progress = 66 ∧
    (∃ f', findFile (reprocessSuccess 2 c8res 5 6
        { initStore with files := [sampleFile 2 .aiProcessed 66] }) 2 = some f' ∧
      f'.status = (sampleFile 2 .aiProcessed 66).status ∧
      f'.progress = (sampleFile 2 .aiProcessed 66).progress ∧
      f'.aiResult = some c8res ∧
      f'.editableAIResult = some c8res.processedText ∧
      f'.id = (sampleFile 2 .aiProcessed 66).id ∧
      f'.name = (sampleFile 2 .aiProcessed 66).name ∧
      f'.size = (sampleFile 2 .aiProcessed 66).size ∧
      f'.ftype = (sampleFile 2 .aiProcessed 66).ftype ∧
      f'.transcription = (sampleFile 2 .aiProcessed 66).transcription ∧
      f'.editableTranscription = (sampleFile 2 .aiProcessed 66).editableTranscription ∧
      f'.finalAudio = (sampleFile 2 .aiProcessed 66).finalAudio ∧
      f'.errors = (sampleFile 2 .aiProcessed 66).errors ∧
      f'.timestamps = { (sampleFile 2 .aiProcessed 66).timestamps with
        aiProcessingStart := some 5, aiProcessingEnd := some 6 }) :=
  ⟨rfl, rfl, rfl, reprocess_frame
    { initStore with files := [sampleFile 2 .aiProcessed 66] } 2
    (sampleFile 2 .aiProcessed 66) rfl rfl rfl c8res 5 6⟩

/-! ## C4 — approval -/

/-- C4: for a record in REVIEW_PENDING, the approve operation
(`handleApprove` in `ReviewModal.jsx`, dispatching the spec-modelled
`approveFile` and `removeFromReviewQueue`) sets the status to APPROVED,
removes the id from the ReviewQueue, adds it to `approvedFiles` and
re-enqueues it onto the ProcessingQueue. -/
theorem approve_spec (s : Store) (id : Nat) (f : FileRec)
    (hf : findFile s id = some f) (_hst : f.status = .reviewPending)
    (edited : Option String) :
    statusOf (handleApprove id edited s) id = some .approved ∧
    id ∉ (handleApprove id edited s).reviewQueue ∧
    id ∈ (handleApprove id edited s).approvedFiles ∧
    id ∈ (handleApprove id edited s).processingQueue := by
  have key : ∀ (s0 : Store) (f0 : FileRec), findFile s0 id = some f0 →
      statusOf (removeFromReviewQueue id (approveFile id s0)) id = some .approved ∧
      id ∉ (removeFromReviewQueue id (approveFile id s0)).reviewQueue ∧
      id ∈ (removeFromReviewQueue id (approveFile id s0)).approvedFiles ∧
      id ∈ (removeFromReviewQueue id (approveFile id s0)).processingQueue := by
    intro s0 f0 h0
    have hhas : hasFile s0 id = true := hasFile_true_of_findFile h0
    have hF := findFile_approveFile id s0 id
    rw [if_pos rfl, h0] at hF
    refine ⟨?_, ?_, ?_, ?_⟩
    · show ((findFile (approveFile id s0) id).map FileRec.status) = some .approved
      rw [hF]
      rfl
    · show id ∉ (approveFile id s0).reviewQueue.filter (fun j => j != id)
      simp [List.mem_filter]
    · show id ∈ (approveFile id s0).approvedFiles
      unfold approveFile guardedUpdate
      rw [if_pos hhas]
      by_cases hc : id ∈ s0.approvedFiles
      · simp [hc]
      · simp [hc]
    · show id ∈ (approveFile id s0).processingQueue
      unfold approveFile guardedUpdate
      rw [if_pos hhas]
      by_cases hc : id ∈ s0.processingQueue
      · simp [hc]
      · simp [hc]
  cases edited with
  | none => exact key s f hf
  | some t =>
    have hE := findFile_updateEditableAIResult id t s id
    rw [if_pos rfl, hf] at hE
    exact key (updateEditableAIResult id t s) _ hE

/-- Witness for C4 at a concrete store holding one REVIEW_PENDING record. -/
theorem approve_spec_witness :
    findFile c4store 1 = some (sampleFile 1 .reviewPending 66) ∧
    (sampleFile 1 .reviewPending 66).status = .reviewPending ∧
    (statusOf (handleApprove 1 none c4store) 1 = some .approved ∧
      1 ∉ (handleApprove 1 none c4store).reviewQueue ∧
      1 ∈ (handleApprove 1 none c4store).approvedFiles ∧
      1 ∈ (handleApprove 1 none c4store).processingQueue) :=
  ⟨rfl, rfl, approve_spec c4store 1 (sampleFile 1 .reviewPending 66) rfl rfl none⟩

theorem queue_updateFileStatus (id : Nat) (st : FileStatus) (p : Option Nat)
    (s : Store) :
    (updateFileStatus id st p s).processingQueue = s.processingQueue :=
  queue_guardedUpdate id (gUpdateStatus st p) (fun t => t) s rfl

theorem findFile_retryOne (s : Store) (i j : Nat) :
    findFile (retryOne s i) j =
      if j = i then (findFile s j).map resetRec else findFile s j := by
  show findFile (updateFileStatus i .pending (some 0) s) j = _
  rw [findFile_updateFileStatus]
  rfl

theorem findFile_retryFold (ids : List Nat) :
    ∀ (s : Store) (j : Nat),
      findFile (ids.foldl retryOne s) j =
        if j ∈ ids then (findFile s j).map resetRec else findFile s j := by
  induction ids with
  | nil => intro s j; simp
  | cons i rest ih =>
    intro s j
    rw [List.foldl_cons, ih (retryOne s i) j, findFile_retryOne]
    by_cases hj : j = i
    · subst hj
      by_cases hr : j ∈ rest
      · rw [if_pos hr, if_pos rfl, if_pos (List.mem_cons_self j rest)]
        cases findFile s j <;> rfl
      · rw [if_neg hr, if_pos rfl, if_pos (List.mem_cons_self j rest)]
    · by_cases hr : j ∈ rest
      · rw [if_pos hr, if_neg hj, if_pos (List.mem_cons_of_mem i hr)]
      · rw [if_neg hr, if_neg hj, if_neg (by simp [hj, hr])]

theorem queue_sub_retryOne (s : Store) (i : Nat) :
    s.processingQueue ⊆ (retryOne s i).processingQueue := by
  intro x hx
  show x ∈ (addToQueue [i] (updateFileStatus i .pending (some 0) s)).processingQueue
  unfold addToQueue
  rw [queue_updateFileStatus]
  exact List.mem_append_left _ (queue_updateFileStatus i .pending (some 0) s ▸ hx)

theorem mem_queue_retryOne (s : Store) (i : Nat) :
    i ∈ (retryOne s i).processingQueue := by
  show i ∈ (addToQueue [i] (updateFileStatus i .pending (some 0) s)).processingQueue
  unfold addToQueue
  rw [queue_updateFileStatus]
  by_cases hc : i ∈ s.processingQueue
  · exact List.mem_append_left _ hc
  · refine List.mem_append_right _ ?_
    simp [hc]

theorem queue_sub_retryFold (ids : List Nat) :
    ∀ s : Store, s.processingQueue ⊆ (ids.foldl retryOne s).processingQueue := by
  induction ids with
  | nil => intro s; exact fun x hx => hx
  | cons i rest ih =>
    intro s x hx
    exact ih (retryOne s i) (queue_sub_retryOne s i hx)

theorem mem_queue_retryFold (ids : List Nat) :
    ∀ (s : Store) (i : Nat), i ∈ ids → i ∈ (ids.foldl retryOne s).processingQueue := by
  induction ids with
  | nil => intro _ _ h; cases h
  | cons a rest ih =>
    intro s i hi
    rcases List.mem_cons.mp hi with rfl | hr
    · exact queue_sub_retryFold rest (retryOne s i) (mem_queue_retryOne s i)
    · exact ih (retryOne s a) i hr

theorem mem_failedIds_iff (s : Store) (h : (s.files.map FileRec.id).Nodup)
    (id : Nat) :
    id ∈ (s.files.filter (fun f => f.status == .failed)).map FileRec.id ↔
      ∃ f, findFile s id = some f ∧ f.status = .failed := by
  constructor
  · intro hm
    rcases List.mem_map.mp hm with ⟨f, hf, rfl⟩
    rcases List.mem_filter.mp hf with ⟨hmem, hstat⟩
    exact ⟨f, find?_eq_of_nodup h hmem rfl, by simpa using hstat⟩
  · rintro ⟨f, hf, hstat⟩
    rcases findFile_mem hf with ⟨hmem, rfl⟩
    exact List.mem_map_of_mem FileRec.id
      (List.mem_filter.mpr ⟨hmem, by simp [hstat]⟩)

/-- C7: `retryFailedFiles` resets every FAILED record to PENDING with
progress 0 while leaving all its other fields (results, editable copies,
errors, timestamps) untouched, leaves every non-FAILED record entirely
unchanged, re-enqueues every FAILED record's id, and returns the number
of FAILED records. -/
theorem retryFailed_spec (s : Store) (h : (s.files.map FileRec.id).Nodup) :
    (retryFailedFiles s).2 =
      (s.files.filter (fun f => f.status == .failed)).length ∧
    (∀ id f, findFile s id = some f →
      (f.status = .failed →
        findFile (retryFailedFiles s).1 id = some (resetRec f) ∧
        id ∈ (retryFailedFiles s).1.processingQueue) ∧
      (f.status ≠ .failed → findFile (retryFailedFiles s).1 id = some f)) ∧
    (∀ id, findFile s id = none → findFile (retryFailedFiles s).1 id = none) := by
  refine ⟨List.length_map _ _, ?_, ?_⟩
  · intro id f hf
    constructor
    · intro hstat
      have hmem : id ∈ (s.files.filter (fun f => f.status == .failed)).map FileRec.id :=
        (mem_failedIds_iff s h id).mpr ⟨f, hf, hstat⟩
      constructor
      · show findFile (((s.files.filter (fun f => f.status == .failed)).map
          FileRec.id).foldl retryOne s) id = _
        rw [findFile_retryFold, if_pos hmem, hf]
        rfl
      · exact mem_queue_retryFold _ s id hmem
    · intro hstat
      have hnm : id ∉ (s.files.filter (fun f => f.status == .failed)).map FileRec.id := by
        intro hmem
        rcases (mem_failedIds_iff s h id).mp hmem with ⟨f', hf', hstat'⟩
        rw [hf] at hf'
        cases hf'
        exact hstat hstat'
      show findFile (((s.files.filter (fun f => f.status == .failed)).map
        FileRec.id).foldl retryOne s) id = _
      rw [findFile_retryFold, if_neg hnm, hf]
  · intro id hf
    show findFile (((s.files.filter (fun f => f.status == .failed)).map
      FileRec.id).foldl retryOne s) id = none
    rw [findFile_retryFold]
    split <;> simp [hf]

/-- Witness for C7: on `c7store`, retry returns 1, resets only the FAILED
record and enqueues its id. -/
theorem retryFailed_spec_witness :
    (c7store.files.map FileRec.id).Nodup ∧
    (retryFailedFiles c7store).2 = 1 ∧
    findFile (retryFailedFiles c7store).1 1 = some (resetRec (sampleFile 1 .failed 33)) ∧
    1 ∈ (retryFailedFiles c7store).1.processingQueue ∧
    findFile (retryFailedFiles c7store).1 2 = some (sampleFile 2 .completed 100) := by
  have h := retryFailed_spec c7store (by decide)
  exact ⟨by decide, h.1.trans rfl,
    ((h.2.1 1 (sampleFile 1 .failed 33) rfl).1 rfl).1,
    ((h.2.1 1 (sampleFile 1 .failed 33) rfl).1 rfl).2,
    (h.2.1 2 (sampleFile 2 .completed 100) rfl).2 (by decide)⟩

/-! ## C6 — batch admission -/

theorem addToQueue_single (x : Nat) (s : Store) (hx : x ∉ s.processingQueue) :
    addToQueue [x] s = { s with processingQueue := s.processingQueue ++ [x] } := by
  unfold addToQueue
  have : [x].filter (fun id => !(s.processingQueue.contains id)) = [x] := by
    simp [hx]
  rw [this]

theorem enqueueEach_eq (l : List Nat) :
    ∀ s : Store, l.Nodup → (∀ x ∈ l, x ∉ s.processingQueue) →
      enqueueEach l s = { s with processingQueue := s.processingQueue ++ l } := by
  induction l with
  | nil =>
    intro s _ _
    show s = _
    simp
  | cons x xs ih =>
    intro s hnd hsub
    rw [List.nodup_cons] at hnd
    show enqueueEach xs (addToQueue [x] s) = _
    rw [addToQueue_single x s (hsub x (List.mem_cons_self x xs))]
    rw [ih _ hnd.2 ?_]
    · simp
    · intro y hy
      simp only [List.mem_append, List.mem_singleton]
      rintro (hq | rfl)
      · exact hsub y (List.mem_cons_of_mem x hy) hq
      · exact hnd.1 hy

/-- C6: `startBatchProcessing` keeps exactly the input ids whose record's
status is PENDING, TRANSCRIBED, AI_PROCESSED or APPROVED; when no id
passes that status filter it fails with the eligibility error and leaves
the store (in particular the ProcessingQueue) unchanged; otherwise it
appends to the queue exactly the kept ids not already in it and returns
the number of kept ids. -/
theorem startBatch_spec (s : Store) (ids : List Nat) (h : ids.Nodup) :
    (eligibleIds s ids = [] →
      startBatchProcessing ids s = (s, .error "No valid files to process")) ∧
    (eligibleIds s ids ≠ [] →
      startBatchProcessing ids s =
        ({ s with processingQueue := s.processingQueue ++ newlyQueued s ids },
         .ok (eligibleIds s ids).length)) ∧
    (∀ id, isEligible s id = true ↔
      ∃ f, findFile s id = some f ∧
        (f.status = .pending ∨ f.status = .transcribed ∨
         f.status = .aiProcessed ∨ f.status = .approved)) := by
  refine ⟨?_, ?_, ?_⟩
  · intro hempty
    unfold startBatchProcessing
    rw [hempty]
    rfl
  · intro hne
    unfold startBatchProcessing
    have hie : (eligibleIds s ids).isEmpty = false := by
      cases he : eligibleIds s ids with
      | nil => exact absurd he hne
      | cons a l => simp
    rw [hie]
    simp only [Bool.false_eq_true, if_false]
    have hq : ∀ y ∈ newlyQueued s ids, y ∉ s.processingQueue := by
      intro y hy
      have hc := (List.mem_filter.mp hy).2
      simp at hc
      exact hc
    have hnd : (newlyQueued s ids).Nodup := by
      unfold newlyQueued eligibleIds
      exact (List.filter_sublist _).nodup (h.filter _)
    rw [enqueueEach_eq (newlyQueued s ids) s hnd hq]
  · intro id
    unfold isEligible
    cases hf : findFile s id with
    | none => simp
    | some f =>
      simp only [hf, Option.map_some, Option.getD_some, Option.some.injEq]
      constructor
      · intro he
        refine ⟨f, rfl, ?_⟩
        cases hst : f.status <;> simp [eligibleStatus, hst] at he ⊢
      · rintro ⟨f', rfl, hor⟩
        rcases hor with hst | hst | hst | hst <;> simp [eligibleStatus, hst]

/-- Witness for C6: with ids `[1, 2]` only the PENDING record is
enqueued; with the COMPLETED-only input `[2]` the call fails and the
store is unchanged. -/
theorem startBatch_spec_witness :
    ([1, 2] : List Nat).Nodup ∧
    startBatchProcessing [1, 2] c6store =
      ({ c6store with processingQueue := [1] }, .ok 1) ∧
    startBatchProcessing [2] c6store = (c6store, .error "No valid files to process") := by
  have h12 := startBatch_spec c6store [1, 2] (by decide)
  have h2 := startBatch_spec c6store [2] (by decide)
  refine ⟨by decide, ?_, ?_⟩
  · exact (h12.2.1 (by decide)).trans rfl
  · exact h2.1 (by decide)

/-! ## Support lemmas for the transition system -/

theorem notInFlightAt_spec {s : Store} {id : Nat} {st : FileStatus}
    (h : notInFlightAt s id = true) (hst : statusOf s id = some st) :
    inFlight st = false := by
  unfold notInFlightAt at h
  rw [hst] at h
  simpa using h

theorem mem_mkFileRecs :
    ∀ {raws : List RawFile} {b now : Nat} {f : FileRec},
      f ∈ mkFileRecs raws b now →
        (b ≤ f.id ∧ f.id < b + raws.length) ∧ f.status = .pending ∧ f.progress = 0 := by
  intro raws
  induction raws with
  | nil => intro b now f h; cases h
  | cons r rs ih =>
    intro b now f h
    rcases List.mem_cons.mp h with rfl | h2
    · exact ⟨⟨Nat.le_refl _, by simp [mkFileRec]⟩, rfl, rfl⟩
    · rcases ih h2 with ⟨⟨hl, hr⟩, hst, hp⟩
      refine ⟨⟨by omega, ?_⟩, hst, hp⟩
      simp only [List.length_cons]
      omega

theorem ids_mkFileRecs_nodup :
    ∀ (raws : List RawFile) (b now : Nat),
      ((mkFileRecs raws b now).map FileRec.id).Nodup := by
  intro raws
  induction raws with
  | nil => intro b now; simp [mkFileRecs]
  | cons r rs ih =>
    intro b now
    simp only [mkFileRecs, List.map_cons, List.nodup_cons]
    refine ⟨?_, ih (b + 1) now⟩
    intro hmem
    rcases List.mem_map.mp hmem with ⟨f, hf, hid⟩
    have hge := (mem_mkFileRecs hf).1.1
    have hb : (mkFileRec r b now).id = b := rfl
    omega

theorem findFile_addFiles_old {s : Store} {j : Nat} {f : FileRec}
    (raws : List RawFile) (b now : Nat) (h : findFile s j = some f) :
    findFile (addFiles raws b now s) j = some f := by
  show List.find? (fun f => f.id == j) (s.files ++ mkFileRecs raws b now) = some f
  rw [List.find?_append]
  rw [findFile] at h
  rw [h]
  rfl

theorem mem_files_addFiles {raws : List RawFile} {b now : Nat} {s : Store}
    {f' : FileRec} (h : f' ∈ (addFiles raws b now s).files) :
    f' ∈ s.files ∨ (f'.status = .pending ∧ f'.progress = 0) := by
  rcases List.mem_append.mp h with h1 | h2
  · exact Or.inl h1
  · exact Or.inr (mem_mkFileRecs h2).2

theorem files_addToQueue (ids : List Nat) (s : Store) :
    (addToQueue ids s).files = s.files := rfl

theorem files_enqueueEach (l : List Nat) :
    ∀ s : Store, (enqueueEach l s).files = s.files := by
  induction l with
  | nil => intro s; rfl
  | cons x xs ih => intro s; exact ih (addToQueue [x] s)

theorem slot_enqueueEach (l : List Nat) :
    ∀ s : Store, (enqueueEach l s).currentlyProcessing = s.currentlyProcessing := by
  induction l with
  | nil => intro s; rfl
  | cons x xs ih => intro s; exact ih (addToQueue [x] s)

/-- A successful `startBatchProcessing` leaves the records and the
currently-processing slot alone (it only enqueues ids). -/
theorem startBatch_ok_shape {s : Store} {ids : List Nat} {s' : Store} {n : Nat}
    (h : startBatchProcessing ids s = (s', .ok n)) :
    s' = enqueueEach (newlyQueued s ids) s := by
  unfold startBatchProcessing at h
  by_cases he : (eligibleIds s ids).isEmpty = true
  · rw [if_pos he] at h
    cases h
  · rw [if_neg he] at h
    exact (Prod.mk.injEq _ _ _ _ ▸ h).1.symm

theorem ids_retryOne (s : Store) (i : Nat) :
    (retryOne s i).files.map FileRec.id = s.files.map FileRec.id := by
  show (updateFileStatus i .pending (some 0) s).files.map FileRec.id = _
  exact ids_guardedUpdate i (gUpdateStatus .pending (some 0)) (fun _ => rfl) (fun t => t) s

theorem ids_retryFold (ids : List Nat) :
    ∀ s : Store, ((ids.foldl retryOne s).files).map FileRec.id = s.files.map FileRec.id := by
  induction ids with
  | nil => intro s; rfl
  | cons i rest ih =>
    intro s
    rw [List.foldl_cons, ih (retryOne s i), ids_retryOne]

theorem slot_retryOne (s : Store) (i : Nat) :
    (retryOne s i).currentlyProcessing = s.currentlyProcessing := by
  show (updateFileStatus i .pending (some 0) s).currentlyProcessing = _
  exact slot_guardedUpdate i (gUpdateStatus .pending (some 0)) (fun t => t) s rfl

theorem slot_retryFold (ids : List Nat) :
    ∀ s : Store, (ids.foldl retryOne s).currentlyProcessing = s.currentlyProcessing := by
  induction ids with
  | nil => intro s; rfl
  | cons i rest ih =>
    intro s
    rw [List.foldl_cons, ih (retryOne s i), slot_retryOne]

theorem mem_files_retryOne {s : Store} {i : Nat} {f' : FileRec}
    (h : f' ∈ (retryOne s i).files) :
    f' ∈ s.files ∨ (f'.status = .pending ∧ f'.progress = 0) := by
  have h' : f' ∈ (updateFileStatus i .pending (some 0) s).files := h
  rcases mem_files_guardedUpdate h' with h1 | ⟨f, _, rfl⟩
  · exact Or.inl h1
  · exact Or.inr ⟨rfl, rfl⟩

theorem mem_files_retryFold (ids : List Nat) :
    ∀ {s : Store} {f' : FileRec}, f' ∈ (ids.foldl retryOne s).files →
      f' ∈ s.files ∨ (f'.status = .pending ∧ f'.progress = 0) := by
  induction ids with
  | nil => intro s f' h; exact Or.inl h
  | cons i rest ih =>
    intro s f' h
    rcases ih h with h1 | h2
    · exact mem_files_retryOne h1
    · exact Or.inr h2

theorem wf_initStore : WF initStore := by
  simp [WF, initStore]

theorem wf_guardedUpdate {s : Store} (h : WF s) (id : Nat)
    (g : FileRec → FileRec) (k : Store → Store) (hg : ∀ f, (g f).id = f.id) :
    WF (guardedUpdate id g k s) := by
  unfold WF
  rw [ids_guardedUpdate id g hg k s]
  exact h

theorem wf_step {s : Store} {a : Act} {s' : Store}
    (hstep : Step s a s') (h : WF s) : WF s' := by
  cases hstep with
  | pickNext h1 h2 h3 h4 => exact h
  | dropMissing h1 h2 h3 => exact h
  | skipReview h1 h2 h3 h4 => exact h
  | startTranscribe h1 h2 => exact wf_guardedUpdate h _ _ _ (fun _ => rfl)
  | settleTranscribeOk h1 => exact wf_guardedUpdate h _ _ _ (fun _ => rfl)
  | settleTranscribeErr h1 => exact wf_guardedUpdate h _ _ _ (fun _ => rfl)
  | startAI h1 h2 h3 => exact wf_guardedUpdate h _ _ _ (fun _ => rfl)
  | failNoKey h1 h2 h3 => exact wf_guardedUpdate h _ _ _ (fun _ => rfl)
  | settleAIOk h1 => exact wf_guardedUpdate h _ _ _ (fun _ => rfl)
  | settleAIErr h1 => exact wf_guardedUpdate h _ _ _ (fun _ => rfl)
  | deferReview h1 h2 h3 =>
    show WF (deferToReview _ s)
    exact wf_guardedUpdate h _ _ _ (fun _ => rfl)
  | startSpeech h1 h2 => exact wf_guardedUpdate h _ _ _ (fun _ => rfl)
  | settleSpeechOk h1 => exact wf_guardedUpdate h _ _ _ (fun _ => rfl)
  | settleSpeechErr h1 => exact wf_guardedUpdate h _ _ _ (fun _ => rfl)
  | engineCatchFail h1 h2 => exact wf_guardedUpdate h _ _ _ (fun _ => rfl)
  | finishFile h1 h2 => exact h
  | userAdd hfresh =>
    unfold WF
    rw [show (addFiles _ _ _ s).files = s.files ++ mkFileRecs _ _ _ from rfl]
    rw [List.map_append]
    refine List.Nodup.append h (ids_mkFileRecs_nodup _ _ _) ?_
    intro x hx hx'
    rcases List.mem_map.mp hx with ⟨f, hf, rfl⟩
    rcases List.mem_map.mp hx' with ⟨f', hf', hid⟩
    have h1 := hfresh f hf
    have h2 := (mem_mkFileRecs hf').1.1
    omega
  | userRemove =>
    unfold WF
    exact ((List.filter_sublist s.files).map FileRec.id).nodup h
  | userClearAll => simp [WF, clearAllFiles]
  | userStartBatch hsb =>
    unfold WF
    rw [startBatch_ok_shape hsb, files_enqueueEach]
    exact h
  | userRetry =>
    unfold WF
    show (List.map FileRec.id ((((s.files.filter (fun f =>
      f.status == FileStatus.failed)).map FileRec.id).foldl retryOne s)).files).Nodup
    rw [ids_retryFold]
    exact h
  | userReprocessStart h1 h2 => exact wf_guardedUpdate h _ _ _ (fun _ => rfl)
  | userBatchAudioStart h1 h2 => exact wf_guardedUpdate h _ _ _ (fun _ => rfl)
  | userApprove h1 =>
    rename_i id edited
    cases edited with
    | none =>
      show WF (approveFile id s)
      exact wf_guardedUpdate h _ _ _ (fun _ => rfl)
    | some t =>
      have h0 : WF (updateEditableAIResult id t s) :=
        wf_guardedUpdate h id (fun f => { f with editableAIResult := some t })
          (fun u => u) (fun _ => rfl)
      show WF (approveFile id (updateEditableAIResult id t s))
      exact wf_guardedUpdate h0 _ _ _ (fun _ => rfl)
  | userReject h1 =>
    show WF (rejectFile _ s)
    exact wf_guardedUpdate h _ _ _ (fun _ => rfl)
  | userEditAIText => exact wf_guardedUpdate h _ _ _ (fun _ => rfl)
  | userSetReviewMode => exact h
  | userSetKey => exact h

theorem slotInv_initStore : SlotInv initStore := by
  intro f hf
  simp [initStore] at hf

theorem no_inflight_of_slot_none {s : Store} (hs : SlotInv s)
    (hnone : s.currentlyProcessing = none) :
    ∀ f ∈ s.files, inFlight f.status = false := by
  intro f hf
  by_contra hb
  rw [Bool.not_eq_false] at hb
  have := hs f hf hb
  rw [hnone] at this
  cases this

theorem target_only_inflight {s : Store} (hwf : WF s) (hs : SlotInv s)
    {id : Nat} (hslot : s.currentlyProcessing = some id) {f : FileRec}
    (hf : f ∈ s.files) (hfl : inFlight f.status = true) :
    findFile s id = some f := by
  have h1 := hs f hf hfl
  rw [hslot] at h1
  exact find?_eq_of_nodup hwf hf (Option.some.inj h1).symm

/-- Claiming a stage for the slot-held record preserves the invariant. -/
theorem slotInv_start {s : Store} {id : Nat} (h : SlotInv s)
    (hslot : s.currentlyProcessing = some id) (g : FileRec → FileRec)
    (k : Store → Store) (hg : ∀ f, (g f).id = f.id)
    (hk : (k s).currentlyProcessing = s.currentlyProcessing) :
    SlotInv (guardedUpdate id g k s) := by
  intro f' hf' hfl
  rw [slot_guardedUpdate id g k s hk]
  rcases mem_files_guardedUpdate hf' with hold | ⟨f, hfind, rfl⟩
  · exact h f' hold hfl
  · rw [hslot, hg f, (findFile_mem hfind).2]

/-- A rewrite whose result is never in flight preserves the invariant. -/
theorem slotInv_nonflight {s : Store} {id : Nat} (h : SlotInv s)
    (g : FileRec → FileRec) (k : Store → Store)
    (hk : (k s).currentlyProcessing = s.currentlyProcessing)
    (hgf : ∀ f, inFlight (g f).status = false) :
    SlotInv (guardedUpdate id g k s) := by
  intro f' hf' hfl
  rw [slot_guardedUpdate id g k s hk]
  rcases mem_files_guardedUpdate hf' with hold | ⟨f, hfind, rfl⟩
  · exact h f' hold hfl
  · rw [hgf f] at hfl
    cases hfl

/-- A rewrite that keeps id and status preserves the invariant. -/
theorem slotInv_statusKeep {s : Store} {id : Nat} (h : SlotInv s)
    (g : FileRec → FileRec) (k : Store → Store)
    (hg : ∀ f, (g f).id = f.id) (hst : ∀ f, (g f).status = f.status)
    (hk : (k s).currentlyProcessing = s.currentlyProcessing) :
    SlotInv (guardedUpdate id g k s) := by
  intro f' hf' hfl
  rw [slot_guardedUpdate id g k s hk]
  rcases mem_files_guardedUpdate hf' with hold | ⟨f, hfind, rfl⟩
  · exact h f' hold hfl
  · rw [hst f] at hfl
    rw [hg f]
    exact h f (findFile_mem hfind).1 hfl

theorem slotInv_step {s : Store} {a : Act} {s' : Store}
    (hstep : Step s a s') (hman : a.manualStage = false)
    (hwf : WF s) (h : SlotInv s) : SlotInv s' := by
  cases hstep with
  | pickNext h1 h2 h3 h4 =>
    intro f' hf' hfl
    have := no_inflight_of_slot_none h h1 f' hf'
    rw [this] at hfl
    cases hfl
  | dropMissing h1 h2 h3 => exact fun f' hf' hfl => h f' hf' hfl
  | skipReview h1 h2 h3 h4 => exact fun f' hf' hfl => h f' hf' hfl
  | startTranscribe h1 h2 => exact slotInv_start h h1 _ _ (fun _ => rfl) rfl
  | settleTranscribeOk h1 => exact slotInv_nonflight h _ _ rfl (fun _ => rfl)
  | settleTranscribeErr h1 => exact slotInv_nonflight h _ _ rfl (fun _ => rfl)
  | startAI h1 h2 h3 => exact slotInv_start h h1 _ _ (fun _ => rfl) rfl
  | failNoKey h1 h2 h3 => exact slotInv_nonflight h _ _ rfl (fun _ => rfl)
  | settleAIOk h1 => exact slotInv_nonflight h _ _ rfl (fun _ => rfl)
  | settleAIErr h1 => exact slotInv_nonflight h _ _ rfl (fun _ => rfl)
  | deferReview h1 h2 h3 =>
    rename_i id
    intro f' hf' hfl
    exfalso
    have hf'' : f' ∈ (deferToReview id s).files := hf'
    rcases mem_files_guardedUpdate hf'' with hold | ⟨f, hfind, rfl⟩
    · have htar := target_only_inflight hwf h h1 hold hfl
      have hstat : statusOf s id = some f'.status := by
        show (findFile s id).map FileRec.status = _
        rw [htar]
        rfl
      rw [h3] at hstat
      have : f'.status = .aiProcessed := (Option.some.inj hstat).symm
      rw [this] at hfl
      cases hfl
    · simp [inFlight] at hfl
  | startSpeech h1 h2 => exact slotInv_start h h1 _ _ (fun _ => rfl) rfl
  | settleSpeechOk h1 => exact slotInv_nonflight h _ _ rfl (fun _ => rfl)
  | settleSpeechErr h1 => exact slotInv_nonflight h _ _ rfl (fun _ => rfl)
  | engineCatchFail h1 h2 => exact slotInv_nonflight h _ _ rfl (fun _ => rfl)
  | finishFile h1 h2 =>
    rename_i id
    intro f' hf' hfl
    exfalso
    have htar := target_only_inflight hwf h h1 hf' hfl
    have hstat : statusOf s id = some f'.status := by
      show (findFile s id).map FileRec.status = _
      rw [htar]
      rfl
    have := notInFlightAt_spec h2 hstat
    rw [this] at hfl
    cases hfl
  | userAdd hfresh =>
    intro f' hf' hfl
    rcases mem_files_addFiles hf' with hold | ⟨hp, _⟩
    · exact h f' hold hfl
    · rw [hp] at hfl
      cases hfl
  | userRemove =>
    rename_i id
    intro f' hf' hfl
    have hmem : f' ∈ s.files := (List.mem_filter.mp hf').1
    have hne : f'.id ≠ id := by
      have := (List.mem_filter.mp hf').2
      simpa using this
    have hslot := h f' hmem hfl
    show (if s.currentlyProcessing = some id then none else s.currentlyProcessing) =
      some f'.id
    by_cases hcond : s.currentlyProcessing = some id
    · exfalso
      rw [hcond] at hslot
      exact hne (Option.some.inj hslot).symm
    · rw [if_neg hcond]
      exact hslot
  | userClearAll =>
    intro f' hf' hfl
    simp [clearAllFiles] at hf'
  | userStartBatch hsb =>
    rename_i ids n
    rw [startBatch_ok_shape hsb]
    intro f' hf' hfl
    rw [files_enqueueEach] at hf'
    rw [slot_enqueueEach (newlyQueued s ids) s]
    exact h f' hf' hfl
  | userRetry =>
    intro f' hf' hfl
    have hf'' : f' ∈ ((((s.files.filter (fun f => f.status == FileStatus.failed)).map
      FileRec.id)).foldl retryOne s).files := hf'
    rcases mem_files_retryFold _ hf'' with hold | ⟨hp, _⟩
    · have hsl : (retryFailedFiles s).1.currentlyProcessing = s.currentlyProcessing :=
        slot_retryFold _ s
      rw [hsl]
      exact h f' hold hfl
    · rw [hp] at hfl
      cases hfl
  | userReprocessStart h1 h2 => cases hman
  | userBatchAudioStart h1 h2 => cases hman
  | userApprove h1 =>
    rename_i id edited
    intro f' hf' hfl
    cases edited with
    | none =>
      have hsl : (handleApprove id none s).currentlyProcessing = s.currentlyProcessing := by
        show (approveFile id s).currentlyProcessing = s.currentlyProcessing
        exact slot_guardedUpdate id _ _ s rfl
      rw [hsl]
      have hf'' : f' ∈ (approveFile id s).files := hf'
      rcases mem_files_guardedUpdate hf'' with hold | ⟨f, hfind, rfl⟩
      · exact h f' hold hfl
      · cases hfl
    | some t =>
      have e2 : (updateEditableAIResult id t s).currentlyProcessing =
          s.currentlyProcessing :=
        slot_guardedUpdate id _ _ s rfl
      have hsl : (handleApprove id (some t) s).currentlyProcessing =
          s.currentlyProcessing := by
        show (approveFile id (updateEditableAIResult id t s)).currentlyProcessing =
          s.currentlyProcessing
        exact (slot_guardedUpdate id _ _ (updateEditableAIResult id t s) rfl).trans e2
      rw [hsl]
      have hf'' : f' ∈ (approveFile id (updateEditableAIResult id t s)).files := hf'
      rcases mem_files_guardedUpdate hf'' with hold | ⟨f, hfind, rfl⟩
      · have hold' : f' ∈ (updateEditableAIResult id t s).files := hold
        rcases mem_files_guardedUpdate hold' with hold2 | ⟨f2, hfind2, rfl⟩
        · exact h f' hold2 hfl
        · exact h f2 (findFile_mem hfind2).1 hfl
      · cases hfl
  | userReject h1 =>
    rename_i id
    intro f' hf' hfl
    have hsl : (handleReject id s).currentlyProcessing = s.currentlyProcessing := by
      show (rejectFile id s).currentlyProcessing = s.currentlyProcessing
      exact slot_guardedUpdate id _ _ s rfl
    rw [hsl]
    have hf'' : f' ∈ (rejectFile id s).files := hf'
    rcases mem_files_guardedUpdate hf'' with hold | ⟨f, hfind, rfl⟩
    · exact h f' hold hfl
    · cases hfl
  | userEditAIText =>
    exact slotInv_statusKeep h _ _ (fun _ => rfl) (fun _ => rfl) rfl
  | userSetReviewMode => exact fun f' hf' hfl => h f' hf' hfl
  | userSetKey => exact fun f' hf' hfl => h f' hf' hfl

theorem inv1_trace :
    ∀ {s0 : Store} {acts : List Act} {s : Store}, ReachVia s0 acts s →
      (∀ a ∈ acts, a.manualStage = false) → WF s0 ∧ SlotInv s0 →
      WF s ∧ SlotInv s := by
  intro s0 acts s hreach
  induction hreach with
  | nil => intro _ hi; exact hi
  | cons hstep hrest ih =>
    intro hm hi
    exact ih (fun a ha => hm a (List.mem_cons_of_mem _ ha))
      ⟨wf_step hstep hi.1,
       slotInv_step hstep (hm _ (List.mem_cons_self _ _)) hi.1 hi.2⟩

theorem inFlightCount_le_one {s : Store} (hwf : WF s) (hs : SlotInv s) :
    inFlightCount s ≤ 1 := by
  unfold inFlightCount
  have hnd : ((s.files.filter (fun f => inFlight f.status)).map FileRec.id).Nodup :=
    ((List.filter_sublist _).map FileRec.id).nodup hwf
  cases hl : s.files.filter (fun f => inFlight f.status) with
  | nil => simp
  | cons x rest =>
    cases rest with
    | nil => simp
    | cons y rest2 =>
      exfalso
      have hx : x ∈ s.files.filter (fun f => inFlight f.status) := by
        rw [hl]; exact List.mem_cons_self _ _
      have hy : y ∈ s.files.filter (fun f => inFlight f.status) := by
        rw [hl]; exact List.mem_cons_of_mem _ (List.mem_cons_self _ _)
      have hxf := List.mem_filter.mp hx
      have hyf := List.mem_filter.mp hy
      have h1 := hs x hxf.1 (by simpa using hxf.2)
      have h2 := hs y hyf.1 (by simpa using hyf.2)
      rw [h1] at h2
      have heq : x.id = y.id := Option.some.inj h2
      rw [hl, List.map_cons, List.map_cons, List.nodup_cons] at hnd
      exact hnd.1 (heq ▸ List.mem_cons_self y.id _)

/-- C1 amended: along every trace that performs no manual stage call
(`reprocessFile` / `startBatchAudioGeneration`), at most one record is in
flight at any reachable instant — the queue engine itself never starts a
stage call for a new file while another is in flight. -/
theorem singleFlight_noManual (acts : List Act) (s : Store)
    (h : ReachVia initStore acts s)
    (hm : ∀ a ∈ acts, a.manualStage = false) :
    inFlightCount s ≤ 1 := by
  have hi := inv1_trace h hm ⟨wf_initStore, slotInv_initStore⟩
  exact inFlightCount_le_one hi.1 hi.2

/-- Witness for the amended C1 on a concrete engine-only trace. -/
theorem singleFlight_noManual_witness :
    ReachVia initStore w1acts w1end ∧ inFlightCount w1end ≤ 1 := by
  have htrace : ReachVia initStore w1acts w1end :=
    ReachVia.cons Step.userSetKey
      (ReachVia.cons (Step.userAdd (by decide))
        (ReachVia.cons (Step.userStartBatch rfl)
          (ReachVia.cons (Step.pickNext rfl rfl rfl (by decide))
            (ReachVia.cons (Step.startTranscribe rfl rfl) ReachVia.nil))))
  exact ⟨htrace, singleFlight_noManual w1acts w1end htrace (by decide)⟩

/-- C1 counterexample: a reachable state of the system has two records in
flight — the engine is transcribing file 1 while a manual reprocess has
put file 2 into AI_PROCESSING. -/
theorem singleFlight_cex :
    ReachVia initStore c1acts c1end ∧ inFlightCount c1end = 2 := by
  refine ⟨?_, by decide⟩
  exact ReachVia.cons Step.userSetKey
    (ReachVia.cons (Step.userAdd (by decide))
      (ReachVia.cons (Step.userStartBatch rfl)
        (ReachVia.cons (Step.pickNext rfl rfl rfl (by decide))
          (ReachVia.cons (Step.startTranscribe rfl rfl)
            (ReachVia.cons (Step.settleTranscribeOk rfl)
              (ReachVia.cons (Step.startAI rfl rfl rfl)
                (ReachVia.cons (Step.settleAIOk rfl)
                  (ReachVia.cons (Step.finishFile rfl rfl)
                    (ReachVia.cons (Step.userStartBatch rfl)
                      (ReachVia.cons (Step.pickNext rfl rfl rfl (by decide))
                        (ReachVia.cons (Step.startTranscribe rfl rfl)
                          (ReachVia.cons
                            (Step.userReprocessStart (Or.inl rfl) rfl)
                            ReachVia.nil))))))))))))

/-! ## C2 — the per-file state machine -/

theorem wf_trace :
    ∀ {s0 : Store} {acts : List Act} {s : Store},
      ReachVia s0 acts s → WF s0 → WF s := by
  intro s0 acts s hreach
  induction hreach with
  | nil => exact fun h => h
  | cons hstep hrest ih => exact fun h => ih (wf_step hstep h)

theorem wf_reachable {s : Store} (h : Reachable s) : WF s := by
  rcases h with ⟨acts, h⟩
  exact wf_trace h wf_initStore

theorem statusOf_some {s : Store} {j : Nat} {x : FileStatus}
    (h : statusOf s j = some x) :
    ∃ f, findFile s j = some f ∧ f.status = x := by
  unfold statusOf at h
  cases hf : findFile s j with
  | none => rw [hf] at h; cases h
  | some f =>
    rw [hf] at h
    exact ⟨f, rfl, Option.some.inj h⟩

/-- After a `guardedUpdate`, a defined status belongs either to an
untouched record or to the rewrite of the looked-up one. -/
theorem statusOf_after_guarded {id : Nat} {g : FileRec → FileRec}
    {k : Store → Store} {s : Store} {j : Nat} {y : FileStatus}
    (hy : statusOf (guardedUpdate id g k s) j = some y)
    (hg : ∀ f, (g f).id = f.id) :
    (statusOf s j = some y) ∨
    (j = id ∧ ∃ f, findFile s j = some f ∧ y = (g f).status) := by
  unfold statusOf at hy
  rw [findFile_guardedUpdate id g hg k s j] at hy
  by_cases hj : j = id
  · subst hj
    rw [if_pos rfl] at hy
    cases hfind : findFile s j with
    | none => rw [hfind] at hy; cases hy
    | some f =>
      rw [hfind] at hy
      exact Or.inr ⟨rfl, f, rfl, (Option.some.inj hy).symm⟩
  · rw [if_neg hj] at hy
    exact Or.inl hy

theorem find?_filter_out (id j : Nat) :
    ∀ l : List FileRec,
      (l.filter (fun f => f.id != id)).find? (fun f => f.id == j) =
        if j = id then none else l.find? (fun f => f.id == j) := by
  intro l
  induction l with
  | nil => by_cases hj : j = id <;> simp [hj]
  | cons a as ih =>
    by_cases ha : a.id = id
    · have h1 : (a.id != id) = false := by simp [ha]
      rw [List.filter_cons, h1]
      simp only [Bool.false_eq_true, if_false]
      rw [ih]
      by_cases hj : j = id
      · rw [if_pos hj, if_pos hj]
      · have h2 : (a.id == j) = false := by
          simp only [beq_eq_false_iff_ne, ne_eq]
          omega
        rw [if_neg hj, if_neg hj, List.find?_cons, h2]
    · have h1 : (a.id != id) = true := by simp [ha]
      rw [List.filter_cons, h1]
      simp only [if_true]
      by_cases hval : (a.id == j) = true
      · rw [List.find?_cons, hval, List.find?_cons, hval]
        have hj : j ≠ id := by
          have := beq_iff_eq.mp hval
          omega
        rw [if_neg hj]
      · have hval' : (a.id == j) = false := by
          rw [← Bool.not_eq_true]
          exact hval
        rw [List.find?_cons, hval', ih, List.find?_cons, hval']

theorem findFile_removeFile (id : Nat) (s : Store) (j : Nat) :
    findFile (removeFile id s) j = if j = id then none else findFile s j :=
  find?_filter_out id j s.files

theorem statusOf_updateEditableAIResult (id : Nat) (t : String) (s : Store)
    (j : Nat) :
    statusOf (updateEditableAIResult id t s) j = statusOf s j := by
  unfold statusOf
  rw [findFile_updateEditableAIResult]
  by_cases hj : j = id
  · subst hj
    rw [if_pos rfl]
    cases findFile s j <;> rfl
  · rw [if_neg hj]

/-- C2 amended: every status change performed by any operation of the
system on any reachable store follows `legalEdgeAmended` — the §4.2 edges
of the claim plus TRANSCRIBED → FAILED on a missing credential and
AI_PROCESSED/REVIEW_PENDING → AI_PROCESSING on a manual reprocess.  In
particular no state skip such as PENDING → COMPLETED is reachable. -/
theorem statusStep_legalAmended {s : Store} (hr : Reachable s) {a : Act}
    {s' : Store} (hstep : Step s a s') (j : Nat) (x y : FileStatus)
    (hx : statusOf s j = some x) (hy : statusOf s' j = some y)
    (hne : x ≠ y) : legalEdgeAmended x y = true := by
  cases hstep with
  | pickNext h1 h2 h3 h4 =>
    have hy' : statusOf s j = some y := hy
    rw [hx] at hy'
    exact absurd (Option.some.inj hy') hne
  | dropMissing h1 h2 h3 =>
    have hy' : statusOf s j = some y := hy
    rw [hx] at hy'
    exact absurd (Option.some.inj hy') hne
  | skipReview h1 h2 h3 h4 =>
    have hy' : statusOf s j = some y := hy
    rw [hx] at hy'
    exact absurd (Option.some.inj hy') hne
  | startTranscribe h1 h2 =>
    rcases statusOf_after_guarded hy (fun _ => rfl) with hsame | ⟨rfl, f, hfind, hyv⟩
    · rw [hx] at hsame
      exact absurd (Option.some.inj hsame) hne
    · rw [h2] at hx
      rw [← Option.some.inj hx, hyv]
      rfl
  | settleTranscribeOk h1 =>
    rcases statusOf_after_guarded hy (fun _ => rfl) with hsame | ⟨rfl, f, hfind, hyv⟩
    · rw [hx] at hsame
      exact absurd (Option.some.inj hsame) hne
    · rw [h1] at hx
      rw [← Option.some.inj hx, hyv]
      rfl
  | settleTranscribeErr h1 =>
    rcases statusOf_after_guarded hy (fun _ => rfl) with hsame | ⟨rfl, f, hfind, hyv⟩
    · rw [hx] at hsame
      exact absurd (Option.some.inj hsame) hne
    · rw [h1] at hx
      rw [← Option.some.inj hx, hyv]
      rfl
  | startAI h1 h2 h3 =>
    rcases statusOf_after_guarded hy (fun _ => rfl) with hsame | ⟨rfl, f, hfind, hyv⟩
    · rw [hx] at hsame
      exact absurd (Option.some.inj hsame) hne
    · rw [h2] at hx
      rw [← Option.some.inj hx, hyv]
      rfl
  | failNoKey h1 h2 h3 =>
    rcases statusOf_after_guarded hy (fun _ => rfl) with hsame | ⟨rfl, f, hfind, hyv⟩
    · rw [hx] at hsame
      exact absurd (Option.some.inj hsame) hne
    · rw [h2] at hx
      rw [← Option.some.inj hx, hyv]
      rfl
  | settleAIOk h1 =>
    rcases statusOf_after_guarded hy (fun _ => rfl) with hsame | ⟨rfl, f, hfind, hyv⟩
    · rw [hx] at hsame
      exact absurd (Option.some.inj hsame) hne
    · rw [h1] at hx
      rw [← Option.some.inj hx, hyv]
      rfl
  | settleAIErr h1 =>
    rcases statusOf_after_guarded hy (fun _ => rfl) with hsame | ⟨rfl, f, hfind, hyv⟩
    · rw [hx] at hsame
      exact absurd (Option.some.inj hsame) hne
    · rw [h1] at hx
      rw [← Option.some.inj hx, hyv]
      rfl
  | deferReview h1 h2 h3 =>
    have hy' : statusOf (deferToReview _ s) j = some y := hy
    rcases statusOf_after_guarded hy' (fun _ => rfl) with hsame | ⟨rfl, f, hfind, hyv⟩
    · rw [hx] at hsame
      exact absurd (Option.some.inj hsame) hne
    · rw [h3] at hx
      rw [← Option.some.inj hx, hyv]
      rfl
  | startSpeech h1 h2 =>
    rcases statusOf_after_guarded hy (fun _ => rfl) with hsame | ⟨rfl, f, hfind, hyv⟩
    · rw [hx] at hsame
      exact absurd (Option.some.inj hsame) hne
    · rcases h2 with h2 | ⟨hmode, h2⟩ <;>
      · rw [h2] at hx
        rw [← Option.some.inj hx, hyv]
        rfl
  | settleSpeechOk h1 =>
    rcases statusOf_after_guarded hy (fun _ => rfl) with hsame | ⟨rfl, f, hfind, hyv⟩
    · rw [hx] at hsame
      exact absurd (Option.some.inj hsame) hne
    · rw [h1] at hx
      rw [← Option.some.inj hx, hyv]
      rfl
  | settleSpeechErr h1 =>
    rcases statusOf_after_guarded hy (fun _ => rfl) with hsame | ⟨rfl, f, hfind, hyv⟩
    · rw [hx] at hsame
      exact absurd (Option.some.inj hsame) hne
    · rw [h1] at hx
      rw [← Option.some.inj hx, hyv]
      rfl
  | engineCatchFail h1 h2 =>
    rcases statusOf_after_guarded hy (fun _ => rfl) with hsame | ⟨rfl, f, hfind, hyv⟩
    · rw [hx] at hsame
      exact absurd (Option.some.inj hsame) hne
    · rcases h2 with h2 | h2
      · rw [h2] at hx
        have hyf : y = FileStatus.failed := hyv
        have hxf : FileStatus.failed = x := Option.some.inj hx
        exact absurd (hxf.symm.trans hyf.symm) hne
      · rw [h2] at hx
        cases hx
  | finishFile h1 h2 =>
    have hy' : statusOf s j = some y := hy
    rw [hx] at hy'
    exact absurd (Option.some.inj hy') hne
  | userAdd hfresh =>
    rename_i raws baseId now
    rcases statusOf_some hx with ⟨f, hfind, hstat⟩
    have := findFile_addFiles_old raws baseId now hfind
    unfold statusOf at hy
    rw [this] at hy
    have : f.status = y := Option.some.inj hy
    exact absurd (hstat ▸ this) hne
  | userRemove =>
    rename_i t
    unfold statusOf at hy
    rw [findFile_removeFile] at hy
    by_cases hj : j = t
    · rw [if_pos hj] at hy
      cases hy
    · rw [if_neg hj] at hy
      have hy' : statusOf s j = some y := hy
      rw [hx] at hy'
      exact absurd (Option.some.inj hy') hne
  | userClearAll =>
    have hy' : (none : Option FileRec).map FileRec.status = some y := hy
    cases hy'
  | userStartBatch hsb =>
    rename_i ids n
    rw [startBatch_ok_shape hsb] at hy
    have hy' : statusOf s j = some y := by
      unfold statusOf findFile at hy ⊢
      rw [files_enqueueEach] at hy
      exact hy
    rw [hx] at hy'
    exact absurd (Option.some.inj hy') hne
  | userRetry =>
    have hwf := wf_reachable hr
    have hy' : statusOf ((((s.files.filter (fun f =>
        f.status == FileStatus.failed)).map FileRec.id)).foldl retryOne s) j =
        some y := hy
    unfold statusOf at hy'
    rw [findFile_retryFold] at hy'
    by_cases hmem : j ∈ (s.files.filter (fun f =>
        f.status == FileStatus.failed)).map FileRec.id
    · rw [if_pos hmem] at hy'
      rcases (mem_failedIds_iff s hwf j).mp hmem with ⟨f, hfind, hstat⟩
      rcases statusOf_some hx with ⟨f2, hfind2, hstat2⟩
      rw [hfind] at hfind2
      cases hfind2
      rw [hfind] at hy'
      have hyv : y = .pending := (Option.some.inj hy').symm
      rw [← hstat2, hstat, hyv]
      rfl
    · rw [if_neg hmem] at hy'
      have hy'' : statusOf s j = some y := hy'
      rw [hx] at hy''
      exact absurd (Option.some.inj hy'') hne
  | userReprocessStart h1 h2 =>
    rcases statusOf_after_guarded hy (fun _ => rfl) with hsame | ⟨rfl, f, hfind, hyv⟩
    · rw [hx] at hsame
      exact absurd (Option.some.inj hsame) hne
    · rcases h1 with h1 | h1 <;>
      · rw [h1] at hx
        rw [← Option.some.inj hx, hyv]
        rfl
  | userBatchAudioStart h1 h2 =>
    rcases statusOf_after_guarded hy (fun _ => rfl) with hsame | ⟨rfl, f, hfind, hyv⟩
    · rw [hx] at hsame
      exact absurd (Option.some.inj hsame) hne
    · rw [h1] at hx
      rw [← Option.some.inj hx, hyv]
      rfl
  | userApprove h1 =>
    rename_i t edited
    cases edited with
    | none =>
      have hy' : statusOf (approveFile t s) j = some y := hy
      rcases statusOf_after_guarded hy' (fun _ => rfl) with hsame | ⟨rfl, f, hfind, hyv⟩
      · rw [hx] at hsame
        exact absurd (Option.some.inj hsame) hne
      · rw [h1] at hx
        rw [← Option.some.inj hx, hyv]
        rfl
    | some tx =>
      have hy' : statusOf (approveFile t (updateEditableAIResult t tx s)) j =
        some y := hy
      rcases statusOf_after_guarded hy' (fun _ => rfl) with hsame | ⟨rfl, f, hfind, hyv⟩
      · rw [statusOf_updateEditableAIResult, hx] at hsame
        exact absurd (Option.some.inj hsame) hne
      · rw [h1] at hx
        rw [← Option.some.inj hx, hyv]
        rfl
  | userReject h1 =>
    rename_i t
    have hy' : statusOf (rejectFile t s) j = some y := hy
    rcases statusOf_after_guarded hy' (fun _ => rfl) with hsame | ⟨rfl, f, hfind, hyv⟩
    · rw [hx] at hsame
      exact absurd (Option.some.inj hsame) hne
    · rw [h1] at hx
      rw [← Option.some.inj hx, hyv]
      rfl
  | userEditAIText =>
    rcases statusOf_after_guarded hy (fun _ => rfl) with hsame | ⟨rfl, f, hfind, hyv⟩
    · rw [hx] at hsame
      exact absurd (Option.some.inj hsame) hne
    · rcases statusOf_some hx with ⟨f2, hfind2, hstat2⟩
      rw [hfind] at hfind2
      cases hfind2
      have hyv' : y = f.status := hyv
      exact absurd (hstat2.symm.trans hyv'.symm) hne
  | userSetReviewMode =>
    have hy' : statusOf s j = some y := hy
    rw [hx] at hy'
    exact absurd (Option.some.inj hy') hne
  | userSetKey =>
    have hy' : statusOf s j = some y := hy
    rw [hx] at hy'
    exact absurd (Option.some.inj hy') hne

theorem c2mid_reachvia : ReachVia initStore c2acts c2mid :=
  ReachVia.cons (Step.userAdd (by decide))
    (ReachVia.cons (Step.userStartBatch rfl)
      (ReachVia.cons (Step.pickNext rfl rfl rfl (by decide))
        (ReachVia.cons (Step.startTranscribe rfl rfl)
          (ReachVia.cons (Step.settleTranscribeOk rfl) ReachVia.nil))))

/-- C2 counterexample: on a reachable state the engine's missing-key
precondition failure moves a record from TRANSCRIBED directly to FAILED —
an edge outside the claim's §4.2 edge list (which reaches FAILED only
from in-flight states). -/
theorem statusEdge_cex :
    ReachVia initStore c2acts c2mid ∧
    Step c2mid (.failNoKey 1 "No OpenAI API key available" 3) c2end ∧
    statusOf c2mid 1 = some .transcribed ∧
    statusOf c2end 1 = some .failed ∧
    legalEdge .transcribed .failed = false :=
  ⟨c2mid_reachvia, Step.failNoKey rfl rfl rfl, rfl, rfl, rfl⟩

/-- Witness for the amended C2 at the concrete missing-key failure. -/
theorem statusStep_legalAmended_witness :
    Reachable c2mid ∧
    statusOf c2mid 1 = some .transcribed ∧
    statusOf c2end 1 = some .failed ∧
    legalEdgeAmended .transcribed .failed = true :=
  ⟨⟨c2acts, c2mid_reachvia⟩, rfl, rfl,
    statusStep_legalAmended ⟨c2acts, c2mid_reachvia⟩
      (@Step.failNoKey c2mid 1 "No OpenAI API key available" 3 rfl rfl rfl)
      1 .transcribed .failed rfl rfl (by decide)⟩

theorem progInv_initStore : ProgInv initStore := by
  intro f hf
  simp [initStore] at hf

theorem target_status {s : Store} {t : Nat} {c : FileStatus} {f : FileRec}
    (hguard : statusOf s t = some c) (hfind : findFile s t = some f) :
    f.status = c := by
  unfold statusOf at hguard
  rw [hfind] at hguard
  exact Option.some.inj hguard

theorem progInv_step {s : Store} {a : Act} {s' : Store}
    (hstep : Step s a s') (h : ProgInv s) : ProgInv s' := by
  cases hstep with
  | pickNext h1 h2 h3 h4 => exact h
  | dropMissing h1 h2 h3 => exact h
  | skipReview h1 h2 h3 h4 => exact h
  | startTranscribe h1 h2 =>
    intro f' hf'
    rcases mem_files_guardedUpdate hf' with hold | ⟨f, hfind, rfl⟩
    · exact h f' hold
    · have hb := h f (findFile_mem hfind).1
      rw [target_status h2 hfind] at hb
      exact hb
  | settleTranscribeOk h1 =>
    intro f' hf'
    rcases mem_files_guardedUpdate hf' with hold | ⟨f, hfind, rfl⟩
    · exact h f' hold
    · show (33 : Nat) ≤ 66
      omega
  | settleTranscribeErr h1 =>
    intro f' hf'
    rcases mem_files_guardedUpdate hf' with hold | ⟨f, hfind, rfl⟩
    · exact h f' hold
    · trivial
  | startAI h1 h2 h3 =>
    intro f' hf'
    rcases mem_files_guardedUpdate hf' with hold | ⟨f, hfind, rfl⟩
    · exact h f' hold
    · have hb := h f (findFile_mem hfind).1
      rw [target_status h2 hfind] at hb
      exact hb
  | failNoKey h1 h2 h3 =>
    intro f' hf'
    rcases mem_files_guardedUpdate hf' with hold | ⟨f, hfind, rfl⟩
    · exact h f' hold
    · trivial
  | settleAIOk h1 =>
    intro f' hf'
    rcases mem_files_guardedUpdate hf' with hold | ⟨f, hfind, rfl⟩
    · exact h f' hold
    · show (66 : Nat) ≤ 66
      omega
  | settleAIErr h1 =>
    intro f' hf'
    rcases mem_files_guardedUpdate hf' with hold | ⟨f, hfind, rfl⟩
    · exact h f' hold
    · trivial
  | deferReview h1 h2 h3 =>
    intro f' hf'
    have hf'' : f' ∈ (deferToReview _ s).files := hf'
    rcases mem_files_guardedUpdate hf'' with hold | ⟨f, hfind, rfl⟩
    · exact h f' hold
    · have hb := h f (findFile_mem hfind).1
      rw [target_status h3 hfind] at hb
      exact hb
  | startSpeech h1 h2 =>
    intro f' hf'
    rcases mem_files_guardedUpdate hf' with hold | ⟨f, hfind, rfl⟩
    · exact h f' hold
    · have hb := h f (findFile_mem hfind).1
      rcases h2 with h2 | ⟨hmode, h2⟩ <;>
      · rw [target_status h2 hfind] at hb
        exact hb
  | settleSpeechOk h1 =>
    intro f' hf'
    rcases mem_files_guardedUpdate hf' with hold | ⟨f, hfind, rfl⟩
    · exact h f' hold
    · trivial
  | settleSpeechErr h1 =>
    intro f' hf'
    rcases mem_files_guardedUpdate hf' with hold | ⟨f, hfind, rfl⟩
    · exact h f' hold
    · trivial
  | engineCatchFail h1 h2 =>
    intro f' hf'
    rcases mem_files_guardedUpdate hf' with hold | ⟨f, hfind, rfl⟩
    · exact h f' hold
    · trivial
  | finishFile h1 h2 => exact h
  | userAdd hfresh =>
    intro f' hf'
    rcases mem_files_addFiles hf' with hold | ⟨hst, hp⟩
    · exact h f' hold
    · rw [show progBound f'.status f'.progress =
        progBound FileStatus.pending 0 by rw [hst, hp]]
      show (0 : Nat) ≤ 33
      omega
  | userRemove =>
    intro f' hf'
    exact h f' (List.mem_filter.mp hf').1
  | userClearAll =>
    intro f' hf'
    simp [clearAllFiles] at hf'
  | userStartBatch hsb =>
    rw [startBatch_ok_shape hsb]
    intro f' hf'
    rw [files_enqueueEach] at hf'
    exact h f' hf'
  | userRetry =>
    intro f' hf'
    have hf'' : f' ∈ ((((s.files.filter (fun f =>
      f.status == FileStatus.failed)).map FileRec.id)).foldl retryOne s).files := hf'
    rcases mem_files_retryFold _ hf'' with hold | ⟨hst, hp⟩
    · exact h f' hold
    · rw [show progBound f'.status f'.progress =
        progBound FileStatus.pending 0 by rw [hst, hp]]
      show (0 : Nat) ≤ 33
      omega
  | userReprocessStart h1 h2 =>
    intro f' hf'
    rcases mem_files_guardedUpdate hf' with hold | ⟨f, hfind, rfl⟩
    · exact h f' hold
    · have hb := h f (findFile_mem hfind).1
      rcases h1 with h1 | h1 <;>
      · rw [target_status h1 hfind] at hb
        exact hb
  | userBatchAudioStart h1 h2 =>
    intro f' hf'
    rcases mem_files_guardedUpdate hf' with hold | ⟨f, hfind, rfl⟩
    · exact h f' hold
    · have hb := h f (findFile_mem hfind).1
      rw [target_status h1 hfind] at hb
      exact hb
  | userApprove h1 =>
    rename_i t edited
    intro f' hf'
    cases edited with
    | none =>
      have hf'' : f' ∈ (approveFile t s).files := hf'
      rcases mem_files_guardedUpdate hf'' with hold | ⟨f, hfind, rfl⟩
      · exact h f' hold
      · have hb := h f (findFile_mem hfind).1
        rw [target_status h1 hfind] at hb
        exact hb
    | some tx =>
      have hf'' : f' ∈ (approveFile t (updateEditableAIResult t tx s)).files := hf'
      rcases mem_files_guardedUpdate hf'' with hold | ⟨f, hfind, rfl⟩
      · have hold' : f' ∈ (updateEditableAIResult t tx s).files := hold
        rcases mem_files_guardedUpdate hold' with hold2 | ⟨f2, hfind2, rfl⟩
        · exact h f' hold2
        · exact h f2 (findFile_mem hfind2).1
      · have hg0 : statusOf (updateEditableAIResult t tx s) t =
            some FileStatus.reviewPending := by
          rw [statusOf_updateEditableAIResult]
          exact h1
        have hst := target_status hg0 hfind
        have hb : progBound f.status f.progress := by
          have hold' : f ∈ (updateEditableAIResult t tx s).files :=
            (findFile_mem hfind).1
          rcases mem_files_guardedUpdate hold' with hold2 | ⟨f2, hfind2, rfl⟩
          · exact h f hold2
          · exact h f2 (findFile_mem hfind2).1
        rw [hst] at hb
        exact hb
  | userReject h1 =>
    rename_i t
    intro f' hf'
    have hf'' : f' ∈ (rejectFile t s).files := hf'
    rcases mem_files_guardedUpdate hf'' with hold | ⟨f, hfind, rfl⟩
    · exact h f' hold
    · trivial
  | userEditAIText =>
    intro f' hf'
    rcases mem_files_guardedUpdate hf' with hold | ⟨f, hfind, rfl⟩
    · exact h f' hold
    · exact h f (findFile_mem hfind).1
  | userSetReviewMode => exact h
  | userSetKey => exact h

theorem progInv_trace :
    ∀ {s0 : Store} {acts : List Act} {s : Store},
      ReachVia s0 acts s → ProgInv s0 → ProgInv s := by
  intro s0 acts s hreach
  induction hreach with
  | nil => exact fun h => h
  | cons hstep hrest ih => exact fun h => ih (progInv_step hstep h)

theorem progInv_reachable {s : Store} (h : Reachable s) : ProgInv s := by
  rcases h with ⟨acts, h⟩
  exact progInv_trace h progInv_initStore

/-- After a `guardedUpdate`, the record found for `j` is the old one, or
the rewrite of the old one when `j` is the target. -/
theorem findFile_after_guarded {id : Nat} {g : FileRec → FileRec}
    {k : Store → Store} {s : Store} {j : Nat} {f' : FileRec}
    (hf' : findFile (guardedUpdate id g k s) j = some f')
    (hg : ∀ f, (g f).id = f.id) {f : FileRec} (hf : findFile s j = some f) :
    f' = f ∨ (j = id ∧ f' = g f) := by
  rw [findFile_guardedUpdate id g hg k s j] at hf'
  by_cases hj : j = id
  · subst hj
    rw [if_pos rfl, hf] at hf'
    exact Or.inr ⟨rfl, (Option.some.inj hf').symm⟩
  · rw [if_neg hj, hf] at hf'
    exact Or.inl (Option.some.inj hf').symm

/-- C3 amended: on every reachable store, every operation of the system
other than `retryFailedFiles` leaves each surviving record's progress at
least as high as before; `retryFailedFiles` is the sole exception, as it
resets FAILED records to progress 0 (spec §4.2 Retry). -/
theorem progress_monotone (s : Store) (hr : Reachable s) {a : Act}
    {s' : Store} (hstep : Step s a s') (hnr : a ≠ .userRetry) (j : Nat)
    (f f' : FileRec) (hf : findFile s j = some f)
    (hf' : findFile s' j = some f') :
    f.progress ≤ f'.progress := by
  cases hstep with
  | pickNext h1 h2 h3 h4 =>
    have hf'' : findFile s j = some f' := hf'
    rw [hf] at hf''
    cases Option.some.inj hf''
    exact Nat.le_refl _
  | dropMissing h1 h2 h3 =>
    have hf'' : findFile s j = some f' := hf'
    rw [hf] at hf''
    cases Option.some.inj hf''
    exact Nat.le_refl _
  | skipReview h1 h2 h3 h4 =>
    have hf'' : findFile s j = some f' := hf'
    rw [hf] at hf''
    cases Option.some.inj hf''
    exact Nat.le_refl _
  | startTranscribe h1 h2 =>
    rcases findFile_after_guarded hf' (fun _ => rfl) hf with rfl | ⟨rfl, rfl⟩
    · exact Nat.le_refl _
    · exact Nat.le_refl _
  | settleTranscribeOk h1 =>
    rcases findFile_after_guarded hf' (fun _ => rfl) hf with rfl | ⟨rfl, rfl⟩
    · exact Nat.le_refl _
    · have hb := progInv_reachable hr f (findFile_mem hf).1
      rw [target_status h1 hf] at hb
      show f.progress ≤ 33
      exact hb
  | settleTranscribeErr h1 =>
    rcases findFile_after_guarded hf' (fun _ => rfl) hf with rfl | ⟨rfl, rfl⟩
    · exact Nat.le_refl _
    · exact Nat.le_refl _
  | startAI h1 h2 h3 =>
    rcases findFile_after_guarded hf' (fun _ => rfl) hf with rfl | ⟨rfl, rfl⟩
    · exact Nat.le_refl _
    · exact Nat.le_refl _
  | failNoKey h1 h2 h3 =>
    rcases findFile_after_guarded hf' (fun _ => rfl) hf with rfl | ⟨rfl, rfl⟩
    · exact Nat.le_refl _
    · exact Nat.le_refl _
  | settleAIOk h1 =>
    rcases findFile_after_guarded hf' (fun _ => rfl) hf with rfl | ⟨rfl, rfl⟩
    · exact Nat.le_refl _
    · have hb := progInv_reachable hr f (findFile_mem hf).1
      rw [target_status h1 hf] at hb
      show f.progress ≤ 66
      exact hb
  | settleAIErr h1 =>
    rcases findFile_after_guarded hf' (fun _ => rfl) hf with rfl | ⟨rfl, rfl⟩
    · exact Nat.le_refl _
    · exact Nat.le_refl _
  | deferReview h1 h2 h3 =>
    have hf'' : findFile (deferToReview _ s) j = some f' := hf'
    rcases findFile_after_guarded hf'' (fun _ => rfl) hf with rfl | ⟨rfl, rfl⟩
    · exact Nat.le_refl _
    · exact Nat.le_refl _
  | startSpeech h1 h2 =>
    rcases findFile_after_guarded hf' (fun _ => rfl) hf with rfl | ⟨rfl, rfl⟩
    · exact Nat.le_refl _
    · exact Nat.le_refl _
  | settleSpeechOk h1 =>
    rcases findFile_after_guarded hf' (fun _ => rfl) hf with rfl | ⟨rfl, rfl⟩
    · exact Nat.le_refl _
    · have hb := progInv_reachable hr f (findFile_mem hf).1
      rw [target_status h1 hf] at hb
      have hb2 : f.progress ≤ 66 := hb
      show f.progress ≤ 100
      omega
  | settleSpeechErr h1 =>
    rcases findFile_after_guarded hf' (fun _ => rfl) hf with rfl | ⟨rfl, rfl⟩
    · exact Nat.le_refl _
    · exact Nat.le_refl _
  | engineCatchFail h1 h2 =>
    rcases findFile_after_guarded hf' (fun _ => rfl) hf with rfl | ⟨rfl, rfl⟩
    · exact Nat.le_refl _
    · exact Nat.le_refl _
  | finishFile h1 h2 =>
    have hf'' : findFile s j = some f' := hf'
    rw [hf] at hf''
    cases Option.some.inj hf''
    exact Nat.le_refl _
  | userAdd hfresh =>
    rename_i raws baseId now
    have := findFile_addFiles_old raws baseId now hf
    rw [this] at hf'
    cases Option.some.inj hf'
    exact Nat.le_refl _
  | userRemove =>
    rename_i t
    rw [findFile_removeFile] at hf'
    by_cases hj : j = t
    · rw [if_pos hj] at hf'
      cases hf'
    · rw [if_neg hj, hf] at hf'
      cases Option.some.inj hf'
      exact Nat.le_refl _
  | userClearAll =>
    have hf'' : (none : Option FileRec) = some f' := hf'
    cases hf''
  | userStartBatch hsb =>
    rw [startBatch_ok_shape hsb] at hf'
    have hf'' : findFile s j = some f' := by
      unfold findFile at hf' ⊢
      rw [files_enqueueEach] at hf'
      exact hf'
    rw [hf] at hf''
    cases Option.some.inj hf''
    exact Nat.le_refl _
  | userRetry => exact absurd rfl hnr
  | userReprocessStart h1 h2 =>
    rcases findFile_after_guarded hf' (fun _ => rfl) hf with rfl | ⟨rfl, rfl⟩
    · exact Nat.le_refl _
    · exact Nat.le_refl _
  | userBatchAudioStart h1 h2 =>
    rcases findFile_after_guarded hf' (fun _ => rfl) hf with rfl | ⟨rfl, rfl⟩
    · exact Nat.le_refl _
    · exact Nat.le_refl _
  | userApprove h1 =>
    rename_i t edited
    cases edited with
    | none =>
      have hf'' : findFile (approveFile t s) j = some f' := hf'
      rcases findFile_after_guarded hf'' (fun _ => rfl) hf with rfl | ⟨rfl, rfl⟩
      · exact Nat.le_refl _
      · exact Nat.le_refl _
    | some tx =>
      have hf'' : findFile (approveFile t (updateEditableAIResult t tx s)) j =
        some f' := hf'
      have hmid := findFile_updateEditableAIResult t tx s j
      by_cases hj : j = t
      · subst hj
        rw [if_pos rfl, hf] at hmid
        rcases findFile_after_guarded hf'' (fun _ => rfl) hmid with rfl | ⟨_, rfl⟩
        · exact Nat.le_refl _
        · exact Nat.le_refl _
      · rw [if_neg hj, hf] at hmid
        rcases findFile_after_guarded hf'' (fun _ => rfl) hmid with rfl | ⟨hj', rfl⟩
        · exact Nat.le_refl _
        · exact absurd hj' hj
  | userReject h1 =>
    rename_i t
    have hf'' : findFile (rejectFile t s) j = some f' := hf'
    rcases findFile_after_guarded hf'' (fun _ => rfl) hf with rfl | ⟨rfl, rfl⟩
    · exact Nat.le_refl _
    · exact Nat.le_refl _
  | userEditAIText =>
    rcases findFile_after_guarded hf' (fun _ => rfl) hf with rfl | ⟨rfl, rfl⟩
    · exact Nat.le_refl _
    · exact Nat.le_refl _
  | userSetReviewMode =>
    have hf'' : findFile s j = some f' := hf'
    rw [hf] at hf''
    cases Option.some.inj hf''
    exact Nat.le_refl _
  | userSetKey =>
    have hf'' : findFile s j = some f' := hf'
    rw [hf] at hf''
    cases Option.some.inj hf''
    exact Nat.le_refl _

theorem reachVia_append {s0 : Store} {acts1 : List Act} {s1 : Store}
    {acts2 : List Act} {s2 : Store} (h1 : ReachVia s0 acts1 s1)
    (h2 : ReachVia s1 acts2 s2) : ReachVia s0 (acts1 ++ acts2) s2 := by
  induction h1 with
  | nil => exact h2
  | cons hstep hrest ih => exact ReachVia.cons hstep (ih h2)

/-- C3 counterexample: on a reachable state holding a FAILED record at
progress 33, the `retryFailedFiles` operation sets that record's progress
to 0 — a decrease. -/
theorem progressDecrease_cex :
    ReachVia initStore
      (c2acts ++ [.failNoKey 1 "No OpenAI API key available" 3]) c2end ∧
    Step c2end .userRetry c3end ∧
    (findFile c2end 1).map FileRec.progress = some 33 ∧
    (findFile c3end 1).map FileRec.progress = some 0 :=
  ⟨reachVia_append c2mid_reachvia
      (ReachVia.cons (Step.failNoKey rfl rfl rfl) ReachVia.nil),
   Step.userRetry, rfl, rfl⟩

/-- Witness for the amended C3 at the concrete missing-key failure step
(progress stays at 33). -/
theorem progress_monotone_witness :
    Reachable c2mid ∧
    (∃ f f', findFile c2mid 1 = some f ∧ findFile c2end 1 = some f' ∧
      f.progress ≤ f'.progress) := by
  obtain ⟨f, hf⟩ : ∃ g, findFile c2mid 1 = some g := ⟨_, rfl⟩
  obtain ⟨f', hf'⟩ : ∃ g, findFile c2end 1 = some g := ⟨_, rfl⟩
  exact ⟨⟨c2acts, c2mid_reachvia⟩, f, f', hf, hf',
    progress_monotone c2mid ⟨c2acts, c2mid_reachvia⟩
      (@Step.failNoKey c2mid 1 "No OpenAI API key available" 3 rfl rfl rfl)
      (by intro hcon; cases hcon) 1 f f' hf hf'⟩

end TK

